import Mathlib

/-!
Verification development for the Vermont Statute Change Manager converter
(`Akoma-Ntoso-XML-Converter.py`): a shallow embedding of the statute text
parser (`AkomaNtosoConverter.parse_text`), the metadata builder
(`create_metadata`) and the XML serializer (`build_xml`), together with
theorems about their behaviour.

Strings are modelled as lists of characters (`Str`).  Whitespace is modelled
as the six ASCII whitespace characters recognised by Python's `str.strip`
and the regex class `\s` on ASCII text.  `datetime.now()` (used only for the
FRBRManifestation date) is modelled as an explicit `pDate` parameter.
-/

namespace AKN

abbrev Str := List Char

/-- Coerce a Lean string literal to the character-list representation. -/
def str (s : String) : Str := s.data

/-- ASCII whitespace, as stripped by Python's `str.strip` / matched by `\s`. -/
def pySpace (c : Char) : Bool :=
  c == ' ' || c == '\t' || c == '\n' || c == '\r' || c == '\x0b' || c == '\x0c'

/-- Python `str.strip()`: remove whitespace from both ends. -/
def strip (s : Str) : Str :=
  ((s.dropWhile pySpace).reverse.dropWhile pySpace).reverse

/-- Python `str.split('\n')`; on the empty string it yields `[""]`. -/
def splitLines : Str → List Str
  | [] => [[]]
  | c :: rest =>
    let r := splitLines rest
    if c == '\n' then [] :: r
    else (c :: r.headD []) :: r.tail

/-- `[0-9]` of the regex patterns. -/
def isAsciiDigit (c : Char) : Bool := decide (48 ≤ c.toNat ∧ c.toNat ≤ 57)

/-- `[a-z]` of the lettered-subsection pattern. -/
def isAsciiLower (c : Char) : Bool := decide (97 ≤ c.toNat ∧ c.toNat ≤ 122)

/-- `[A-Z]`. -/
def isAsciiUpper (c : Char) : Bool := decide (65 ≤ c.toNat ∧ c.toNat ≤ 90)

/-- `[A-Za-z]` of the section/subsection number patterns. -/
def isAsciiAlpha (c : Char) : Bool := isAsciiUpper c || isAsciiLower c

/-- If `p` is a literal prefix of `s`, return the remainder of `s`. -/
def afterLit (p : Str) (s : Str) : Option Str :=
  match p, s with
  | [], rest => some rest
  | _ :: _, [] => none
  | a :: ps, b :: rest => if a == b then afterLit ps rest else none

/-- Match `(\d+[A-Za-z]?)\.\s*(.*)$`: a number (digits, optionally one
letter), a period, then optional whitespace and the remainder.  Returns the
captured number and the remainder. -/
def numDotRest (s : Str) : Option (Str × Str) :=
  let ds := s.takeWhile isAsciiDigit
  let rest := s.dropWhile isAsciiDigit
  if ds.isEmpty then none
  else
    match rest with
    | '.' :: r => some (ds, r.dropWhile pySpace)
    | c :: '.' :: r => if isAsciiAlpha c then some (ds ++ [c], r.dropWhile pySpace) else none
    | _ => none

/-- `section_pattern = r'^(Sec\.|Section)\s+(\d+[A-Za-z]?)\.\s*(.*)$'`.
Captures (number, heading). -/
def sectionMatch (line : Str) : Option (Str × Str) :=
  let afterKw :=
    match afterLit (str "Sec.") line with
    | some r => some r
    | none => afterLit (str "Section") line
  match afterKw with
  | none => none
  | some r =>
    match r with
    | c :: rest => if pySpace c then numDotRest (rest.dropWhile pySpace) else none
    | [] => none

/-- `subsection_pattern = r'^§\s*(\d+[A-Za-z]?)\.\s*(.*)$'`.
Captures (number, heading). -/
def subsecMatch (line : Str) : Option (Str × Str) :=
  match line with
  | c :: rest => if c == '§' then numDotRest (rest.dropWhile pySpace) else none
  | [] => none

/-- `lettered_subsec_pattern = r'^\(([a-z])\)\s*(.*)$'`.
Captures (letter, first content line). -/
def letteredMatch (line : Str) : Option (Char × Str) :=
  match line with
  | '(' :: c :: ')' :: rest => if isAsciiLower c then some (c, rest.dropWhile pySpace) else none
  | _ => none

/-- `numbered_item_pattern = r'^\((\d+)\)\s*(.*)$'`.
Captures (number, remainder). -/
def numberedMatch (line : Str) : Option (Str × Str) :=
  match line with
  | '(' :: rest =>
    let ds := rest.takeWhile isAsciiDigit
    if ds.isEmpty then none
    else
      match rest.dropWhile isAsciiDigit with
      | ')' :: r => some (ds, r.dropWhile pySpace)
      | _ => none
  | _ => none

/-- A numbered item dict: `{'type': 'numbered_item', 'number': …, 'content': […]}`. -/
structure NumberedItem where
  number : Str
  content : List Str
deriving DecidableEq

/-- A lettered subsection dict: `{'type': 'lettered_subsection', 'letter': …, 'content': […]}`. -/
structure LetteredItem where
  letter : Char
  content : List Str
deriving DecidableEq

/-- An entry of a subsection's `items` list (always one of the two dict kinds). -/
inductive SubsecItem where
  | lettered : LetteredItem → SubsecItem
  | numbered : NumberedItem → SubsecItem
deriving DecidableEq

/-- A subsection dict: `{'type': 'subsection', 'number', 'heading', 'content', 'items'}`. -/
structure Subsection where
  number : Str
  heading : Str
  content : List Str
  items : List SubsecItem
deriving DecidableEq

/-- An entry of a section's `content` list: a plain string or a numbered-item dict. -/
inductive SecEntry where
  | line : Str → SecEntry
  | item : NumberedItem → SecEntry
deriving DecidableEq

/-- A section dict: `{'type': 'section', 'number', 'heading', 'content', 'subsections'}`. -/
structure Section where
  number : Str
  heading : Str
  content : List SecEntry
  subsections : List Subsection
deriving DecidableEq

/-- The `structure` dict returned by `parse_text`. -/
structure Structure where
  preamble : List Str
  sections : List Section
deriving DecidableEq

/-- Replace the last element of a list by `f` of it (models an in-place
mutation of `list[-1]`). -/
def modifyLast (f : α → α) : List α → List α
  | [] => []
  | [a] => [f a]
  | a :: b :: rest => a :: modifyLast f (b :: rest)

/-!
Parser state.  In `parse_text`, `current_section` always aliases the most
recently appended element of `structure['sections']` (it is assigned only
when a fresh section dict is appended), and `current_subsection` always
aliases the most recently appended element of `current_section['subsections']`
(assigned only when a fresh subsection dict is appended, and reset to `None`
exactly when a new — necessarily subsection-free — section is created).
Likewise `in_preamble` starts `True` and is set to `False` exactly when the
first section is appended.  Hence, over the whole run:
  `current_section is not None`    ⟺  `sections` is non-empty,
  `current_subsection is not None` ⟺  the last section's `subsections` is non-empty,
  `in_preamble`                    ⟺  `sections` is empty,
so the builder state is exactly the structure built so far, and the aliasing
mutations become updates of the last list elements. -/

/-- `current_section is not None`. -/
def curSectionExists (st : Structure) : Bool := !st.sections.isEmpty

/-- `current_subsection is not None`. -/
def curSubsectionExists (st : Structure) : Bool :=
  match st.sections.getLast? with
  | some sec => !sec.subsections.isEmpty
  | none => false

/-- Mutate the section aliased by `current_section` (the last one). -/
def withLastSection (f : Section → Section) (st : Structure) : Structure :=
  { st with sections := modifyLast f st.sections }

/-- Mutate the subsection aliased by `current_subsection` (the last
subsection of the last section). -/
def withLastSubsection (f : Subsection → Subsection) (st : Structure) : Structure :=
  withLastSection (fun sec => { sec with subsections := modifyLast f sec.subsections }) st

/-- `last_item['content'].append(line)` — both the lettered and the numbered
case of the continuation rule append the line to the item's content. -/
def itemAppendLine (l : Str) : SubsecItem → SubsecItem
  | .lettered li => .lettered { li with content := li.content ++ [l] }
  | .numbered ni => .numbered { ni with content := ni.content ++ [l] }

/-- The "Regular content line" block of `parse_text` (lines 214–233).
Every entry of a subsection's `items` list is a lettered or a numbered item
dict, and the source appends the line to `items[-1]` in both cases, so when
`items` is non-empty the line always goes to the last item. -/
def handlePlain (st : Structure) (line : Str) : Structure :=
  if st.sections.isEmpty then
    -- `if in_preamble: structure['preamble'].append(line)`
    { st with preamble := st.preamble ++ [line] }
  else if curSubsectionExists st then
    withLastSubsection (fun sub =>
      if sub.items.isEmpty then { sub with content := sub.content ++ [line] }
      else { sub with items := modifyLast (itemAppendLine line) sub.items }) st
  else
    -- `elif current_section:` — reached whenever `sections` is non-empty and
    -- no subsection is open; the missing final `else` of the source is
    -- unreachable because `in_preamble` is false only once a section exists.
    withLastSection (fun sec =>
      match sec.content.getLast? with
      | some (.item _) =>
        { sec with content := modifyLast (fun e =>
            match e with
            | .item ni => SecEntry.item { ni with content := ni.content ++ [line] }
            | e => e) sec.content }
      | _ => { sec with content := sec.content ++ [.line line] }) st

/-- One iteration of the `for line in lines` loop of `parse_text`, for a
non-blank stripped line.  The fall-through structure mirrors the source: a
subsection header with no open section, or a lettered header with no open
subsection, falls through to the following pattern checks (which cannot
match it) and then to plain-content handling; a numbered header is matched
unconditionally, and when neither a subsection nor a section is open the
item is appended nowhere (the loop just continues). -/
def step (st : Structure) (line : Str) : Structure :=
  match sectionMatch line with
  | some (num, heading) =>
    { st with sections := st.sections ++
        [{ number := num, heading := heading, content := [], subsections := [] }] }
  | none =>
  match subsecMatch line, curSectionExists st with
  | some (num, heading), true =>
    withLastSection (fun sec => { sec with subsections := sec.subsections ++
        [{ number := num, heading := heading, content := [], items := [] }] }) st
  | _, _ =>
  match letteredMatch line, curSubsectionExists st with
  | some (c, r), true =>
    withLastSubsection (fun sub => { sub with items := sub.items ++
        [.lettered { letter := c, content := [r] }] }) st
  | _, _ =>
  match numberedMatch line with
  | some (num, r) =>
    -- `content_text = numbered_match.group(2).strip()`
    let contentText := strip r
    -- `'content': [content_text] if content_text else []`
    let item : NumberedItem :=
      { number := num, content := if contentText.isEmpty then [] else [contentText] }
    if curSubsectionExists st then
      withLastSubsection (fun sub => { sub with items := sub.items ++ [.numbered item] }) st
    else if curSectionExists st then
      withLastSection (fun sec => { sec with content := sec.content ++ [.item item] }) st
    else
      st
  | none => handlePlain st line

/-- `text.strip().split('\n')`, each line stripped, blank lines skipped
(the `if not line: continue` of the loop). -/
def cleanLines (text : Str) : List Str :=
  ((splitLines (strip text)).map strip).filter (fun l => !l.isEmpty)

/-- Run the parse loop over a list of already-cleaned lines. -/
def runLines (ls : List Str) (st : Structure) : Structure := ls.foldl step st

/-- `AkomaNtosoConverter.parse_text`. -/
def parseText (text : Str) : Structure :=
  runLines (cleanLines text) { preamble := [], sections := [] }

/-!
The XML element tree (`xml.etree.ElementTree`): an element has a tag, an
ordered attribute list (insertion order of `.set` calls), optional text, and
an ordered list of children.  The child list is a separate mutually-inductive
type so that all recursions over the tree are structural. -/

mutual
inductive Xml where
  | el : Str → List (Str × Str) → Option Str → XmlList → Xml
deriving DecidableEq
inductive XmlList where
  | nil : XmlList
  | cons : Xml → XmlList → XmlList
deriving DecidableEq
end

def XmlList.ofList : List Xml → XmlList
  | [] => .nil
  | x :: xs => .cons x (XmlList.ofList xs)

def XmlList.toList : XmlList → List Xml
  | .nil => []
  | .cons x xs => x :: XmlList.toList xs

def XmlList.append : XmlList → XmlList → XmlList
  | .nil, ys => ys
  | .cons x xs, ys => .cons x (XmlList.append xs ys)

def XmlList.modifyLast (f : Xml → Xml) : XmlList → XmlList
  | .nil => .nil
  | .cons x .nil => .cons (f x) .nil
  | .cons x (XmlList.cons y ys) => .cons x (XmlList.modifyLast f (.cons y ys))

/-- Build an element from a literal tag and a child list. -/
def el (tag : String) (attrs : List (Str × Str)) (tx : Option Str) (cs : List Xml) : Xml :=
  .el (str tag) attrs tx (.ofList cs)

def tagOf : Xml → Str
  | .el t _ _ _ => t

def attrsOf : Xml → List (Str × Str)
  | .el _ a _ _ => a

def textOf : Xml → Option Str
  | .el _ _ tx _ => tx

def childrenOf : Xml → List Xml
  | .el _ _ _ cs => cs.toList

mutual
/-- All elements of the tree (the node itself included) carrying tag `t`. -/
def elemsWithTag (t : Str) : Xml → List Xml
  | .el tag attrs tx cs =>
    (if tag = t then [Xml.el tag attrs tx cs] else []) ++ elemsWithTagL t cs
def elemsWithTagL (t : Str) : XmlList → List Xml
  | .nil => []
  | .cons x xs => elemsWithTag t x ++ elemsWithTagL t xs
end

/-- The number of elements of the tree carrying tag `t`. -/
def countTag (t : Str) (x : Xml) : Nat := (elemsWithTag t x).length

/-- The `eId` attribute of an element. -/
def eIdOf (x : Xml) : Option Str := (attrsOf x).lookup (str "eId")

/-- The direct children of `x` with tag `t`. -/
def childrenWithTag (t : Str) (x : Xml) : List Xml :=
  (childrenOf x).filter (fun c => tagOf c == t)

/-- The texts of the direct `p` children of `x`, in order. -/
def pTexts (x : Xml) : List Str :=
  (childrenOf x).filterMap (fun c => if tagOf c = str "p" then textOf c else none)

/-- A deterministic byte rendering of an element tree (text before
children, attributes in insertion order). -/
def attrString : List (Str × Str) → Str
  | [] => []
  | (k, v) :: rest => str " " ++ k ++ str "=" ++ ['"'] ++ v ++ ['"'] ++ attrString rest

mutual
def xmlString : Xml → Str
  | .el tag attrs tx cs =>
    str "<" ++ tag ++ attrString attrs ++ str ">" ++ tx.getD [] ++
      xmlStringL cs ++ str "</" ++ tag ++ str ">"
def xmlStringL : XmlList → Str
  | .nil => []
  | .cons x xs => xmlString x ++ xmlStringL xs
end

/-- `number.replace('.', '_')` used for section eIds. -/
def replaceDots (s : Str) : Str := s.map (fun c => if c = '.' then '_' else c)

/-- The converter configuration (`__init__` fields; `date_enacted` is the
stored value, after the `or datetime.now()...` default). -/
structure Config where
  jurisdiction : Str
  state : Str
  dateEnacted : Str
deriving DecidableEq

/-- The `uri_path` computed in `create_metadata`. -/
def uriPath (cfg : Config) (actNumber : Str) : Str :=
  str "/akn/" ++ cfg.jurisdiction ++
    (if cfg.state.isEmpty then [] else str "-" ++ cfg.state) ++
    str "/act/" ++ cfg.dateEnacted.take 4 ++ str "/" ++
    (if actNumber.isEmpty then str "statute" else actNumber)

/-- `AkomaNtosoConverter.create_metadata`; `pDate` models `datetime.now()`
(the processing date used for the FRBRManifestation date).  The `title`
parameter of the source is unused by the method and therefore omitted. -/
def metaElem (cfg : Config) (pDate : Str) (actNumber : Str) : Xml :=
  let up := uriPath cfg actNumber
  el "meta" [] none
    [ el "identification" [(str "source", str "#source")] none
        [ el "FRBRWork" [] none
            [ el "FRBRthis" [(str "value", up ++ str "/!main")] none [],
              el "FRBRuri" [(str "value", up)] none [],
              el "FRBRdate" [(str "date", cfg.dateEnacted), (str "name", str "Generation")] none [],
              el "FRBRauthor" [(str "href", str "#legislature")] none [],
              el "FRBRcountry" [(str "value", cfg.jurisdiction)] none [] ],
          el "FRBRExpression" [] none
            [ el "FRBRthis" [(str "value", up ++ str "/eng@" ++ cfg.dateEnacted ++ str "/!main")] none [],
              el "FRBRuri" [(str "value", up ++ str "/eng@" ++ cfg.dateEnacted)] none [],
              el "FRBRdate" [(str "date", cfg.dateEnacted), (str "name", str "Expression")] none [],
              el "FRBRauthor" [(str "href", str "#legislature")] none [],
              el "FRBRlanguage" [(str "language", str "eng")] none [] ],
          el "FRBRManifestation" [] none
            [ el "FRBRthis" [(str "value", up ++ str "/eng@" ++ cfg.dateEnacted ++ str "/!main.xml")] none [],
              el "FRBRuri" [(str "value", up ++ str "/eng@" ++ cfg.dateEnacted ++ str ".xml")] none [],
              el "FRBRdate" [(str "date", pDate), (str "name", str "XMLConversion")] none [],
              el "FRBRauthor" [(str "href", str "#converter")] none [] ] ],
      el "publication"
        [(str "date", cfg.dateEnacted), (str "name", str "enacted"),
         (str "showAs", str "Enacted")] none [],
      el "references" [(str "source", str "#source")] none
        [ el "TLCOrganization"
            [(str "eId", str "legislature"),
             (str "href",
               if cfg.state.isEmpty then str "/akn/" ++ cfg.jurisdiction ++ str "/legislature"
               else str "/akn/" ++ cfg.jurisdiction ++ str "-" ++ cfg.state ++ str "/legislature"),
             (str "showAs", str "Legislature")] none [],
          el "TLCOrganization"
            [(str "eId", str "source"), (str "href", str "#"),
             (str "showAs", str "Original Source")] none [],
          el "TLCPerson"
            [(str "eId", str "converter"), (str "href", str "#"),
             (str "showAs", str "Document Converter")] none [] ] ]

/-- `<p>line</p>`. -/
def pElem (line : Str) : Xml := el "p" [] (some line) []

/-- A numbered item rendered under a blockList with id `listId`
(`build_xml` lines 283–298 and 346–360: a `num` child, then one `p` per
content line). -/
def itemElem (listId : Str) (it : NumberedItem) : Xml :=
  el "item" [(str "eId", listId ++ str "__item_" ++ it.number)] none
    (el "num" [] (some (str "(" ++ it.number ++ str ")")) [] :: it.content.map pElem)

/-- A lettered subsection rendered as a nested `subsection` element
(`build_xml` lines 328–339). -/
def letterElem (subsecId : Str) (li : LetteredItem) : Xml :=
  el "subsection" [(str "eId", subsecId ++ str "__subsec_" ++ [li.letter])] none
    [ el "num" [] (some (str "(" ++ [li.letter] ++ str ")")) [],
      el "content" [] none (li.content.map pElem) ]

/-- The lettered items of a subsection's `items`, in order. -/
def subLettered (items : List SubsecItem) : List LetteredItem :=
  items.filterMap (fun it => match it with | .lettered li => some li | _ => none)

/-- The numbered items of a subsection's `items`, in order. -/
def subNumbered (items : List SubsecItem) : List NumberedItem :=
  items.filterMap (fun it => match it with | .numbered ni => some ni | _ => none)

/-- Append further children to an element (mutation of an aliased
`content_elem`). -/
def appendChildren (ps : List Xml) : Xml → Xml
  | .el tag attrs tx cs => .el tag attrs tx (cs.append (.ofList ps))

/-- Append `ps` into the last child of an element: this is what happens to a
lettered subsection element when the stale `content_elem` variable — still
aliasing the `content` element created as the (last) child of the last
lettered `subsection` element — receives the free-form `p` appends. -/
def pushIntoLastChild (ps : List Xml) : Xml → Xml
  | .el tag attrs tx cs => .el tag attrs tx (cs.modifyLast (appendChildren ps))

/-- A subsection rendered by `build_xml` (lines 309–368).  The free-form
`content` lines are appended as `p` elements to whatever element the
`content_elem` variable holds at that point: the `content` element created
for the numbered-item blockList if there are numbered items; otherwise, if
there are lettered items, the `content` element inside the **last lettered
subsection element** (a stale reference from the lettered loop); otherwise a
freshly created `content` element of the subsection itself. -/
def subsecElem (secId : Str) (sub : Subsection) : Xml :=
  let subsecId := secId ++ str "__subsec_" ++ sub.number
  let numE := el "num" [] (some (str "§ " ++ sub.number ++ str ".")) []
  let headingPart := if sub.heading.isEmpty then [] else [el "heading" [] (some sub.heading) []]
  let rest :=
    if sub.content.isEmpty && sub.items.isEmpty then []
    else
      let lettered := subLettered sub.items
      let numbered := subNumbered sub.items
      let letteredElems := lettered.map (letterElem subsecId)
      let ps := sub.content.map pElem
      if !numbered.isEmpty then
        letteredElems ++
          [el "content" [] none
            (el "blockList" [(str "eId", subsecId ++ str "__list_1")] none
              (numbered.map (itemElem (subsecId ++ str "__list_1"))) :: ps)]
      else if !lettered.isEmpty then
        if sub.content.isEmpty then letteredElems
        else modifyLast (pushIntoLastChild ps) letteredElems
      else
        [el "content" [] none ps]
  el "subsection" [(str "eId", subsecId)] none (numE :: headingPart ++ rest)

/-- The plain-string entries of a section's `content`, in order. -/
def secLines (entries : List SecEntry) : List Str :=
  entries.filterMap (fun e => match e with | .line l => some l | _ => none)

/-- The numbered-item entries of a section's `content`, in order. -/
def secItems (entries : List SecEntry) : List NumberedItem :=
  entries.filterMap (fun e => match e with | .item it => some it | _ => none)

/-- `has_items = any(… c.get('type') == 'numbered_item' …)`. -/
def hasNumberedItems (entries : List SecEntry) : Bool :=
  entries.any (fun e => match e with | .item _ => true | _ => false)

/-- A section rendered by `build_xml` (lines 259–306 plus the subsection
loop): `num`, optional `heading`, optional `content` (with the numbered
items grouped into one `blockList` placed before the plain `p` lines when
any numbered item is present), then the subsection elements. -/
def sectionElem (sec : Section) : Xml :=
  let secId := str "sec_" ++ replaceDots sec.number
  let numE := el "num" [] (some (str "Sec. " ++ sec.number ++ str ".")) []
  let headingPart := if sec.heading.isEmpty then [] else [el "heading" [] (some sec.heading) []]
  let contentPart :=
    if sec.content.isEmpty then []
    else if hasNumberedItems sec.content then
      [el "content" [] none
        (el "blockList" [(str "eId", secId ++ str "__list_1")] none
          ((secItems sec.content).map (itemElem (secId ++ str "__list_1")))
          :: (secLines sec.content).map pElem)]
    else
      [el "content" [] none ((secLines sec.content).map pElem)]
  el "section" [(str "eId", secId)] none
    (numE :: headingPart ++ contentPart ++ sec.subsections.map (subsecElem secId))

/-- `AkomaNtosoConverter.build_xml`: root `akomaNtoso` → `act` → `meta`,
optional `preface`, optional `preamble`, `body`. -/
def buildXml (cfg : Config) (pDate : Str) (st : Structure) (title : Str) (actNumber : Str) : Xml :=
  let actChildren :=
    metaElem cfg pDate actNumber
      :: (if title.isEmpty then [] else
           [el "preface" [] none [el "p" [] none [el "docType" [] (some title) []]]])
      ++ (if st.preamble.isEmpty then [] else
           [el "preamble" [] none (st.preamble.map pElem)])
      ++ [el "body" [] none (st.sections.map sectionElem)]
  el "akomaNtoso" [(str "xmlns", str "http://docs.oasis-open.org/legaldocml/ns/akn/3.0")] none
    [el "act" [(str "name", str "act")] none actChildren]

/-- `AkomaNtosoConverter.convert` up to pretty-printing: parse then build. -/
def convertXml (cfg : Config) (pDate : Str) (text : Str) (title : Str) (actNumber : Str) : Xml :=
  buildXml cfg pDate (parseText text) title actNumber

/-- The `act` element of the output (its root's single child). -/
def actOf (root : Xml) : Option Xml := (childrenOf root).head?

/-- The `meta` element of the output (the first child of `act`). -/
def metaOf (root : Xml) : Option Xml := (actOf root).bind (fun a => (childrenOf a).head?)

/-- The `body` element of the output (always the last child of `act`). -/
def bodyOf (root : Xml) : Option Xml := (actOf root).bind (fun a => (childrenOf a).getLast?)

/-- A line on which none of the four header patterns matches, i.e. a line
the classifier assigns `PlainText`. -/
def plainLine (l : Str) : Bool :=
  (sectionMatch l).isNone && (subsecMatch l).isNone &&
    (letteredMatch l).isNone && (numberedMatch l).isNone

/-- The content a numbered item is seeded with from the header remainder
`r`: `[content_text] if content_text else []`. -/
def numberedSeed (r : Str) : List Str :=
  if (strip r).isEmpty then [] else [strip r]

/-- The `items` list of the subsection currently aliased by
`current_subsection` (the last subsection of the last section). -/
def lastSubItems (st : Structure) : List SubsecItem :=
  match st.sections.getLast? with
  | some sec =>
    match sec.subsections.getLast? with
    | some sub => sub.items
    | none => []
  | none => []

/-- The `content` list of the section currently aliased by
`current_section` (the last section). -/
def lastSecContent (st : Structure) : List SecEntry :=
  match st.sections.getLast? with
  | some sec => sec.content
  | none => []

/-!
A size measure on the parse structure counting, for every processed line,
the entity it appended: a preamble line, a section, a subsection, an item
(a numbered header contributes `1 +` its seeded lines so that a header with
an empty remainder still counts), a stored content line. Each non-discarded
line strictly increases the measure. -/

def itemMeasure : SubsecItem → Nat
  | .lettered li => li.content.length
  | .numbered ni => 1 + ni.content.length

def entryMeasure : SecEntry → Nat
  | .line _ => 1
  | .item ni => 1 + ni.content.length

def subMeasure (sub : Subsection) : Nat :=
  1 + sub.content.length + (sub.items.map itemMeasure).sum

def secMeasure (sec : Section) : Nat :=
  1 + (sec.content.map entryMeasure).sum + (sec.subsections.map subMeasure).sum

def stMeasure (st : Structure) : Nat :=
  st.preamble.length + (st.sections.map secMeasure).sum

/-- A sample configuration used by concrete instances: jurisdiction `us`,
state `vt`, enactment date `2024-01-02`. -/
def cfgSample : Config :=
  { jurisdiction := str "us", state := str "vt", dateEnacted := str "2024-01-02" }

/-- A sample processing date. -/
def pdSample : Str := str "2024-03-04"

/-! ### Helper lemmas: `modifyLast` and `XmlList` -/

theorem modifyLast_concat (f : α → α) : ∀ (xs : List α) (a : α),
    modifyLast f (xs ++ [a]) = xs ++ [f a]
  | [], _ => rfl
  | [x], a => rfl
  | x :: y :: ys, a => by
    simp only [List.cons_append, modifyLast, List.append_eq]
    rw [← List.cons_append y ys [a], modifyLast_concat f (y :: ys) a]
    simp

theorem getLast?_modifyLast (f : α → α) (xs : List α) :
    (modifyLast f xs).getLast? = xs.getLast?.map f := by
  rcases List.eq_nil_or_concat xs with h | ⟨ys, a, h⟩
  · subst h; rfl
  · subst h; simp [modifyLast_concat, List.getLast?_concat]

theorem length_modifyLast (f : α → α) (xs : List α) :
    (modifyLast f xs).length = xs.length := by
  rcases List.eq_nil_or_concat xs with h | ⟨ys, a, h⟩
  · subst h; rfl
  · subst h; simp [modifyLast_concat]

theorem map_modifyLast_of_preserve (f : α → α) (g : α → β) (xs : List α)
    (h : ∀ a, g (f a) = g a) :
    (modifyLast f xs).map g = xs.map g := by
  rcases List.eq_nil_or_concat xs with hx | ⟨ys, a, hx⟩
  · subst hx; rfl
  · subst hx; simp [modifyLast_concat, h]

theorem map_modifyLast_comm (f : α → α) (g : α → β) (h : β → β) (xs : List α)
    (hc : ∀ a, g (f a) = h (g a)) :
    (modifyLast f xs).map g = modifyLast h (xs.map g) := by
  rcases List.eq_nil_or_concat xs with hx | ⟨ys, a, hx⟩
  · subst hx; rfl
  · subst hx; simp [modifyLast_concat, hc]

theorem sum_map_modifyLast (f : α → α) (g : α → Nat) (xs : List α) (a : α) (k : Nat)
    (hlast : xs.getLast? = some a) (hg : g (f a) = g a + k) :
    ((modifyLast f xs).map g).sum = (xs.map g).sum + k := by
  rcases List.eq_nil_or_concat xs with hx | ⟨ys, b, hx⟩
  · subst hx; simp at hlast
  · subst hx
    simp only [List.concat_eq_append, List.getLast?_concat] at hlast
    obtain rfl : b = a := by injection hlast
    simp only [List.concat_eq_append, modifyLast_concat, List.map_append, List.sum_append,
      List.map_cons, List.map_nil, List.sum_cons, List.sum_nil, hg]
    omega

theorem toList_ofList : ∀ (xs : List Xml), (XmlList.ofList xs).toList = xs
  | [] => rfl
  | x :: xs => by simp [XmlList.ofList, XmlList.toList, toList_ofList xs]

theorem toList_append : ∀ (xs ys : XmlList),
    (xs.append ys).toList = xs.toList ++ ys.toList
  | .nil, _ => rfl
  | .cons x xs, ys => by simp [XmlList.append, XmlList.toList, toList_append xs ys]

theorem elemsWithTagL_ofList (t : Str) : ∀ (xs : List Xml),
    elemsWithTagL t (.ofList xs) = (xs.map (elemsWithTag t)).flatten
  | [] => rfl
  | x :: xs => by
    simp [XmlList.ofList, elemsWithTagL, elemsWithTagL_ofList t xs]

theorem childrenOf_el (tag : String) (attrs : List (Str × Str)) (tx : Option Str)
    (cs : List Xml) : childrenOf (el tag attrs tx cs) = cs := by
  simp [childrenOf, el, toList_ofList]

/-! ### Pattern disjointness and reduction of `step` -/

theorem numberedMatch_head {l : Str} {p : Str × Str} (h : numberedMatch l = some p) :
    ∃ d rest, l = '(' :: d :: rest ∧ isAsciiDigit d = true := by
  unfold numberedMatch at h
  split at h
  · next rest =>
    cases rest with
    | nil => simp at h
    | cons d rest2 =>
      by_cases hd : isAsciiDigit d = true
      · exact ⟨d, rest2, rfl, hd⟩
      · simp [List.takeWhile_cons, hd] at h
  · simp at h

theorem sectionMatch_paren (rest : Str) : sectionMatch ('(' :: rest) = none := rfl

theorem subsecMatch_paren (rest : Str) : subsecMatch ('(' :: rest) = none := rfl

theorem letteredMatch_of_numbered {l : Str} {p : Str × Str}
    (h : numberedMatch l = some p) : letteredMatch l = none := by
  obtain ⟨d, rest, rfl, hd⟩ := numberedMatch_head h
  unfold letteredMatch
  split
  · next c rest3 heq =>
    obtain ⟨rfl, -⟩ : d = c ∧ rest = ')' :: rest3 := by
      injection heq with h1 h2
      injection h2 with h3 h4
      exact ⟨h3, h4⟩
    have : isAsciiLower d = false := by
      unfold isAsciiDigit at hd
      unfold isAsciiLower
      simp at hd ⊢
      omega
    simp [this]
  · rfl

theorem step_section {l : Str} {n h : Str} (hm : sectionMatch l = some (n, h))
    (st : Structure) :
    step st l = { st with sections := st.sections ++
        [{ number := n, heading := h, content := [], subsections := [] }] } := by
  unfold step
  rw [hm]

theorem step_plain {l : Str} (hp : plainLine l = true) (st : Structure) :
    step st l = handlePlain st l := by
  unfold plainLine at hp
  simp only [Bool.and_eq_true, Option.isNone_iff_eq_none] at hp
  obtain ⟨⟨⟨h1, h2⟩, h3⟩, h4⟩ := hp
  unfold step
  rw [h1, h2, h3, h4]

theorem step_numbered_noSection {l : Str} {n r : Str}
    (hm : numberedMatch l = some (n, r)) (st : Structure)
    (hs : st.sections = []) : step st l = st := by
  obtain ⟨d, rest, rfl, -⟩ := numberedMatch_head hm
  unfold step
  rw [sectionMatch_paren, subsecMatch_paren, letteredMatch_of_numbered hm, hm]
  have hsub : curSubsectionExists st = false := by
    unfold curSubsectionExists
    rw [hs]
    rfl
  have hsec : curSectionExists st = false := by
    unfold curSectionExists
    rw [hs]
    rfl
  simp [hsub, hsec]

theorem step_numbered_sub {l : Str} {n r : Str}
    (hm : numberedMatch l = some (n, r)) (st : Structure)
    (hs : curSubsectionExists st = true) :
    step st l = withLastSubsection (fun sub => { sub with items := sub.items ++
        [.numbered { number := n, content := numberedSeed r }] }) st := by
  obtain ⟨d, rest, rfl, -⟩ := numberedMatch_head hm
  unfold step
  rw [sectionMatch_paren, subsecMatch_paren, letteredMatch_of_numbered hm, hm]
  simp [hs, numberedSeed]

theorem step_numbered_sec {l : Str} {n r : Str}
    (hm : numberedMatch l = some (n, r)) (st : Structure)
    (hsub : curSubsectionExists st = false) (hsec : curSectionExists st = true) :
    step st l = withLastSection (fun sec => { sec with content := sec.content ++
        [.item { number := n, content := numberedSeed r }] }) st := by
  obtain ⟨d, rest, rfl, -⟩ := numberedMatch_head hm
  unfold step
  rw [sectionMatch_paren, subsecMatch_paren, letteredMatch_of_numbered hm, hm]
  simp [hsub, hsec, numberedSeed]

/-! ### Parser-state accessors -/

theorem curSectionExists_true_iff (st : Structure) :
    curSectionExists st = true ↔ st.sections ≠ [] := by
  unfold curSectionExists
  simp [List.isEmpty_iff]

theorem curSectionExists_false_iff (st : Structure) :
    curSectionExists st = false ↔ st.sections = [] := by
  unfold curSectionExists
  simp [List.isEmpty_iff]

theorem curSubsectionExists_true_iff (st : Structure) :
    curSubsectionExists st = true ↔
      ∃ sec, st.sections.getLast? = some sec ∧ sec.subsections ≠ [] := by
  unfold curSubsectionExists
  cases h : st.sections.getLast? with
  | none => simp
  | some sec => simp [List.isEmpty_iff]

theorem sections_withLastSection (f : Section → Section) (st : Structure) :
    (withLastSection f st).sections = modifyLast f st.sections := rfl

theorem preamble_withLastSection (f : Section → Section) (st : Structure) :
    (withLastSection f st).preamble = st.preamble := rfl

theorem getLast?_sections_withLastSection (f : Section → Section) (st : Structure) :
    (withLastSection f st).sections.getLast? = st.sections.getLast?.map f := by
  rw [sections_withLastSection, getLast?_modifyLast]

theorem curSubsectionExists_withLastSubsection (f : Subsection → Subsection)
    (st : Structure) :
    curSubsectionExists (withLastSubsection f st) = curSubsectionExists st := by
  unfold curSubsectionExists withLastSubsection
  rw [getLast?_sections_withLastSection]
  cases h : st.sections.getLast? with
  | none => rfl
  | some sec =>
    simp only [Option.map_some]
    cases hs : sec.subsections with
    | nil => simp [hs, modifyLast]
    | cons a as =>
      cases as with
      | nil => simp [hs, modifyLast]
      | cons b bs => simp [hs, modifyLast]

theorem lastSubItems_withLastSubsection (f : Subsection → Subsection) (st : Structure)
    (sec : Section) (sub : Subsection)
    (hsec : st.sections.getLast? = some sec)
    (hsub : sec.subsections.getLast? = some sub) :
    lastSubItems (withLastSubsection f st) = (f sub).items := by
  simp [lastSubItems, withLastSubsection, getLast?_sections_withLastSection, hsec,
    getLast?_modifyLast, hsub]

theorem lastSubItems_eq (st : Structure) (sec : Section) (sub : Subsection)
    (hsec : st.sections.getLast? = some sec)
    (hsub : sec.subsections.getLast? = some sub) :
    lastSubItems st = sub.items := by
  simp [lastSubItems, hsec, hsub]

theorem lastSecContent_withLastSection (f : Section → Section) (st : Structure)
    (sec : Section) (hsec : st.sections.getLast? = some sec) :
    lastSecContent (withLastSection f st) = (f sec).content := by
  simp [lastSecContent, getLast?_sections_withLastSection, hsec]

theorem exists_getLast? {l : List α} (h : l ≠ []) : ∃ a, l.getLast? = some a := by
  cases h2 : l.getLast? with
  | none =>
    rw [List.getLast?_eq_none_iff] at h2
    exact absurd h2 h
  | some a => exact ⟨a, rfl⟩

/-! ### More pattern-shape lemmas and `step` branch lemmas -/

theorem subsecMatch_head {l : Str} {p : Str × Str} (h : subsecMatch l = some p) :
    ∃ rest, l = '§' :: rest := by
  unfold subsecMatch at h
  split at h
  · next c rest =>
    by_cases hc : c = '§'
    · exact ⟨rest, by rw [hc]⟩
    · simp [hc] at h
  · simp at h

theorem letteredMatch_head {l : Str} {p : Char × Str} (h : letteredMatch l = some p) :
    ∃ c rest, l = '(' :: c :: ')' :: rest ∧ isAsciiLower c = true := by
  unfold letteredMatch at h
  split at h
  · next c rest =>
    by_cases hc : isAsciiLower c = true
    · exact ⟨c, rest, rfl, hc⟩
    · simp [hc] at h
  · simp at h

theorem sectionMatch_subsec (rest : Str) : sectionMatch ('§' :: rest) = none := rfl

theorem letteredMatch_subsec (rest : Str) : letteredMatch ('§' :: rest) = none := rfl

theorem numberedMatch_subsec (rest : Str) : numberedMatch ('§' :: rest) = none := rfl

theorem numberedMatch_of_lettered {l : Str} {p : Char × Str}
    (h : letteredMatch l = some p) : numberedMatch l = none := by
  obtain ⟨c, rest, rfl, hc⟩ := letteredMatch_head h
  have hd : isAsciiDigit c = false := by
    unfold isAsciiLower at hc
    unfold isAsciiDigit
    simp at hc ⊢
    omega
  simp [numberedMatch, List.takeWhile_cons, hd]

theorem step_subsec {l : Str} {n h : Str} (hm : subsecMatch l = some (n, h))
    (st : Structure) (hcs : curSectionExists st = true) :
    step st l = withLastSection (fun sec => { sec with subsections := sec.subsections ++
        [{ number := n, heading := h, content := [], items := [] }] }) st := by
  obtain ⟨rest, rfl⟩ := subsecMatch_head hm
  unfold step
  rw [sectionMatch_subsec, hm, hcs]

theorem step_lettered {l : Str} {c : Char} {r : Str} (hm : letteredMatch l = some (c, r))
    (st : Structure) (hcs : curSubsectionExists st = true) :
    step st l = withLastSubsection (fun sub => { sub with items := sub.items ++
        [.lettered { letter := c, content := [r] }] }) st := by
  obtain ⟨c0, rest, rfl, -⟩ := letteredMatch_head hm
  unfold step
  rw [sectionMatch_paren, subsecMatch_paren, hm, hcs]

theorem step_subsec_noSection {l : Str} {n h : Str} (hm : subsecMatch l = some (n, h))
    (st : Structure) (hcs : curSectionExists st = false) :
    step st l = handlePlain st l := by
  obtain ⟨rest, rfl⟩ := subsecMatch_head hm
  unfold step
  rw [sectionMatch_subsec, hm, hcs, letteredMatch_subsec, numberedMatch_subsec]

theorem step_lettered_noSubsection {l : Str} {c : Char} {r : Str}
    (hm : letteredMatch l = some (c, r)) (st : Structure)
    (hcs : curSubsectionExists st = false) :
    step st l = handlePlain st l := by
  obtain ⟨c0, rest, rfl, -⟩ := letteredMatch_head hm
  unfold step
  rw [sectionMatch_paren, subsecMatch_paren, hm, hcs, numberedMatch_of_lettered hm]

/-! ### Tracking of section numbers through the run (for the section-count
property) -/

theorem map_number_withLastSection (f : Section → Section) (st : Structure)
    (h : ∀ sec, (f sec).number = sec.number) :
    (withLastSection f st).sections.map Section.number =
      st.sections.map Section.number := by
  rw [sections_withLastSection]
  exact map_modifyLast_of_preserve f Section.number _ h

theorem sections_map_number_handlePlain (st : Structure) (l : Str) :
    (handlePlain st l).sections.map Section.number = st.sections.map Section.number := by
  unfold handlePlain
  split
  · rfl
  · split
    · exact map_number_withLastSection _ _ (fun sec => rfl)
    · refine map_number_withLastSection _ _ (fun sec => ?_)
      cases hc : sec.content.getLast? with
      | none => rfl
      | some e =>
        cases e with
        | line s => rfl
        | item ni => rfl

theorem sections_map_number_step {l : Str} (hm : sectionMatch l = none) (st : Structure) :
    (step st l).sections.map Section.number = st.sections.map Section.number := by
  cases hsub : subsecMatch l with
  | some p =>
    obtain ⟨n, h⟩ := p
    cases hcs : curSectionExists st with
    | true =>
      rw [step_subsec hsub st hcs]
      exact map_number_withLastSection _ _ (fun sec => rfl)
    | false =>
      rw [step_subsec_noSection hsub st hcs]
      exact sections_map_number_handlePlain st l
  | none =>
    cases hlet : letteredMatch l with
    | some p =>
      obtain ⟨c, r⟩ := p
      cases hcsub : curSubsectionExists st with
      | true =>
        rw [step_lettered hlet st hcsub]
        exact map_number_withLastSection _ _ (fun sec => rfl)
      | false =>
        rw [step_lettered_noSubsection hlet st hcsub]
        exact sections_map_number_handlePlain st l
    | none =>
      cases hnum : numberedMatch l with
      | some p =>
        obtain ⟨n, r⟩ := p
        cases hcsub : curSubsectionExists st with
        | true =>
          rw [step_numbered_sub hnum st hcsub]
          exact map_number_withLastSection _ _ (fun sec => rfl)
        | false =>
          cases hcs : curSectionExists st with
          | true =>
            rw [step_numbered_sec hnum st hcsub hcs]
            exact map_number_withLastSection _ _ (fun sec => rfl)
          | false =>
            rw [step_numbered_noSection hnum st ((curSectionExists_false_iff st).mp hcs)]
      | none =>
        have hp : plainLine l = true := by
          simp [plainLine, hm, hsub, hlet, hnum]
        rw [step_plain hp st]
        exact sections_map_number_handlePlain st l

theorem handlePlain_noSection (st : Structure) (l : Str) (hs : st.sections = []) :
    handlePlain st l = { st with preamble := st.preamble ++ [l] } := by
  unfold handlePlain
  simp [hs]

theorem curSubsectionExists_noSection (st : Structure) (hs : st.sections = []) :
    curSubsectionExists st = false := by
  unfold curSubsectionExists
  rw [hs]
  rfl

theorem step_plain_noSection {l : Str} (hm : sectionMatch l = none)
    (hnum : numberedMatch l = none) (st : Structure) (hs : st.sections = []) :
    step st l = { st with preamble := st.preamble ++ [l] } := by
  have hcs : curSectionExists st = false := (curSectionExists_false_iff st).mpr hs
  have hcsub : curSubsectionExists st = false := curSubsectionExists_noSection st hs
  cases hsub : subsecMatch l with
  | some p =>
    obtain ⟨n, h⟩ := p
    rw [step_subsec_noSection hsub st hcs, handlePlain_noSection st l hs]
  | none =>
    cases hlet : letteredMatch l with
    | some p =>
      obtain ⟨c, r⟩ := p
      rw [step_lettered_noSubsection hlet st hcsub, handlePlain_noSection st l hs]
    | none =>
      have hp : plainLine l = true := by
        simp [plainLine, hm, hsub, hlet, hnum]
      rw [step_plain hp st, handlePlain_noSection st l hs]

theorem sections_ne_nil_step (st : Structure) (l : Str) (h : st.sections ≠ []) :
    (step st l).sections ≠ [] := by
  cases hm : sectionMatch l with
  | some p =>
    obtain ⟨n, hh⟩ := p
    rw [step_section hm]
    simp
  | none =>
    have hmap := sections_map_number_step hm st
    intro hz
    rw [hz] at hmap
    simp only [List.map_nil] at hmap
    exact h (List.map_eq_nil_iff.mp hmap.symm)

theorem preamble_handlePlain_of_ne (st : Structure) (l : Str) (h : st.sections ≠ []) :
    (handlePlain st l).preamble = st.preamble := by
  unfold handlePlain
  have hie : st.sections.isEmpty = false := by
    cases hs : st.sections with
    | nil => exact absurd hs h
    | cons a as => rfl
  rw [hie]
  simp only [Bool.false_eq_true, if_false]
  split
  · rfl
  · rfl

theorem preamble_step_of_ne (st : Structure) (l : Str) (h : st.sections ≠ []) :
    (step st l).preamble = st.preamble := by
  cases hm : sectionMatch l with
  | some p =>
    obtain ⟨n, hh⟩ := p
    rw [step_section hm]
  | none =>
    cases hsub : subsecMatch l with
    | some p =>
      obtain ⟨n, hh⟩ := p
      cases hcs : curSectionExists st with
      | true => rw [step_subsec hsub st hcs]; rfl
      | false => exact absurd ((curSectionExists_false_iff st).mp hcs) h
    | none =>
      cases hlet : letteredMatch l with
      | some p =>
        obtain ⟨c, r⟩ := p
        cases hcsub : curSubsectionExists st with
        | true => rw [step_lettered hlet st hcsub]; rfl
        | false =>
          rw [step_lettered_noSubsection hlet st hcsub]
          exact preamble_handlePlain_of_ne st l h
      | none =>
        cases hnum : numberedMatch l with
        | some p =>
          obtain ⟨n, r⟩ := p
          cases hcsub : curSubsectionExists st with
          | true => rw [step_numbered_sub hnum st hcsub]; rfl
          | false =>
            cases hcs : curSectionExists st with
            | true => rw [step_numbered_sec hnum st hcsub hcs]; rfl
            | false => exact absurd ((curSectionExists_false_iff st).mp hcs) h
        | none =>
          have hp : plainLine l = true := by
            simp [plainLine, hm, hsub, hlet, hnum]
          rw [step_plain hp st]
          exact preamble_handlePlain_of_ne st l h

theorem preamble_runLines_of_ne : ∀ (ls : List Str) (st : Structure),
    st.sections ≠ [] → (runLines ls st).preamble = st.preamble
  | [], st, _ => rfl
  | l :: ls, st, h => by
    show (runLines ls (step st l)).preamble = st.preamble
    rw [preamble_runLines_of_ne ls (step st l) (sections_ne_nil_step st l h)]
    exact preamble_step_of_ne st l h

theorem preamble_runLines_noSection : ∀ (ls : List Str) (st : Structure),
    st.sections = [] →
    (runLines ls st).preamble = st.preamble ++
      ((ls.takeWhile (fun l => (sectionMatch l).isNone)).filter
        (fun l => (numberedMatch l).isNone))
  | [], st, _ => by simp [runLines]
  | l :: ls, st, hs => by
    show (runLines ls (step st l)).preamble = _
    cases hm : sectionMatch l with
    | some p =>
      obtain ⟨n, h⟩ := p
      rw [step_section hm]
      rw [preamble_runLines_of_ne ls _ (by simp)]
      simp [List.takeWhile_cons, hm]
    | none =>
      cases hnum : numberedMatch l with
      | some p =>
        rw [step_numbered_noSection hnum st hs]
        rw [preamble_runLines_noSection ls st hs]
        simp [List.takeWhile_cons, hm, List.filter_cons, hnum]
      | none =>
        rw [step_plain_noSection hm hnum st hs]
        rw [preamble_runLines_noSection ls { st with preamble := st.preamble ++ [l] }
          (by simpa using hs)]
        simp [List.takeWhile_cons, hm, List.filter_cons, hnum]

/-! ### Measure lemmas: every processed line other than an orphan numbered
header strictly grows the structure -/

theorem stMeasure_withLastSection (f : Section → Section) (st : Structure)
    (sec : Section) (k : Nat) (hsec : st.sections.getLast? = some sec)
    (h : secMeasure (f sec) = secMeasure sec + k) :
    stMeasure (withLastSection f st) = stMeasure st + k := by
  show st.preamble.length + ((modifyLast f st.sections).map secMeasure).sum =
    st.preamble.length + (st.sections.map secMeasure).sum + k
  rw [sum_map_modifyLast f secMeasure st.sections sec k hsec h]
  omega

theorem stMeasure_withLastSubsection (f : Subsection → Subsection) (st : Structure)
    (sec : Section) (sub : Subsection) (k : Nat)
    (hsec : st.sections.getLast? = some sec)
    (hsub : sec.subsections.getLast? = some sub)
    (h : subMeasure (f sub) = subMeasure sub + k) :
    stMeasure (withLastSubsection f st) = stMeasure st + k := by
  unfold withLastSubsection
  refine stMeasure_withLastSection _ st sec k hsec ?_
  show 1 + (sec.content.map entryMeasure).sum +
      ((modifyLast f sec.subsections).map subMeasure).sum = secMeasure sec + k
  rw [sum_map_modifyLast f subMeasure sec.subsections sub k hsub h]
  unfold secMeasure
  omega

theorem itemMeasure_append (l : Str) (it : SubsecItem) :
    itemMeasure (itemAppendLine l it) = itemMeasure it + 1 := by
  cases it with
  | lettered li => simp [itemAppendLine, itemMeasure]
  | numbered ni =>
    simp [itemAppendLine, itemMeasure]
    omega

theorem stMeasure_handlePlain (st : Structure) (l : Str) :
    stMeasure (handlePlain st l) = stMeasure st + 1 := by
  unfold handlePlain
  split
  · show (st.preamble ++ [l]).length + (st.sections.map secMeasure).sum = stMeasure st + 1
    unfold stMeasure
    simp only [List.length_append, List.length_cons, List.length_nil]
    omega
  · split
    · next hcsub =>
      obtain ⟨sec, hsec, hsubne⟩ := (curSubsectionExists_true_iff st).mp hcsub
      obtain ⟨sub, hsublast⟩ := exists_getLast? hsubne
      refine stMeasure_withLastSubsection _ st sec sub 1 hsec hsublast ?_
      by_cases hit : sub.items.isEmpty = true
      · simp only [hit, if_true]
        show 1 + (sub.content ++ [l]).length + (sub.items.map itemMeasure).sum =
          subMeasure sub + 1
        unfold subMeasure
        simp
        omega
      · simp only [hit, Bool.false_eq_true, if_false]
        have hne : sub.items ≠ [] := by
          cases hi : sub.items with
          | nil => rw [hi] at hit; exact absurd rfl hit
          | cons a as => simp
        obtain ⟨it, hitlast⟩ := exists_getLast? hne
        show 1 + sub.content.length +
            ((modifyLast (itemAppendLine l) sub.items).map itemMeasure).sum =
          subMeasure sub + 1
        rw [sum_map_modifyLast (itemAppendLine l) itemMeasure sub.items it 1 hitlast
          (itemMeasure_append l it)]
        unfold subMeasure
        omega
    · next hns hcsub =>
      have hne : st.sections ≠ [] := by
        intro hz
        rw [hz] at hns
        exact hns rfl
      obtain ⟨sec, hsec⟩ := exists_getLast? hne
      refine stMeasure_withLastSection _ st sec 1 hsec ?_
      cases hc : sec.content.getLast? with
      | some e =>
        cases e with
        | item ni =>
          have hcne : sec.content ≠ [] := by
            intro hz
            rw [hz] at hc
            simp at hc
          show 1 + ((modifyLast _ sec.content).map entryMeasure).sum +
              (sec.subsections.map subMeasure).sum = secMeasure sec + 1
          rw [sum_map_modifyLast _ entryMeasure sec.content (SecEntry.item ni) 1 hc
            (by simp [entryMeasure]; omega)]
          unfold secMeasure
          omega
        | line s =>
          show 1 + ((sec.content ++ [SecEntry.line l]).map entryMeasure).sum +
              (sec.subsections.map subMeasure).sum = secMeasure sec + 1
          unfold secMeasure
          simp [entryMeasure]
          omega
      | none =>
        show 1 + ((sec.content ++ [SecEntry.line l]).map entryMeasure).sum +
            (sec.subsections.map subMeasure).sum = secMeasure sec + 1
        unfold secMeasure
        simp [entryMeasure]
        omega

theorem stMeasure_step_lt (st : Structure) (l : Str)
    (hyp : numberedMatch l = none ∨ st.sections ≠ []) :
    stMeasure st < stMeasure (step st l) := by
  cases hm : sectionMatch l with
  | some p =>
    obtain ⟨n, h⟩ := p
    rw [step_section hm]
    show stMeasure st <
      st.preamble.length + ((st.sections ++ [_]).map secMeasure).sum
    unfold stMeasure
    simp [secMeasure]
  | none =>
    cases hsub : subsecMatch l with
    | some p =>
      obtain ⟨n, h⟩ := p
      cases hcs : curSectionExists st with
      | true =>
        rw [step_subsec hsub st hcs]
        obtain ⟨sec, hsec⟩ := exists_getLast? ((curSectionExists_true_iff st).mp hcs)
        rw [stMeasure_withLastSection _ st sec 1 hsec
          (by unfold secMeasure; simp [subMeasure]; omega)]
        omega
      | false =>
        rw [step_subsec_noSection hsub st hcs, stMeasure_handlePlain]
        omega
    | none =>
      cases hlet : letteredMatch l with
      | some p =>
        obtain ⟨c, r⟩ := p
        cases hcsub : curSubsectionExists st with
        | true =>
          rw [step_lettered hlet st hcsub]
          obtain ⟨sec, hsec, hsubne⟩ := (curSubsectionExists_true_iff st).mp hcsub
          obtain ⟨sub, hsublast⟩ := exists_getLast? hsubne
          rw [stMeasure_withLastSubsection _ st sec sub 1 hsec hsublast
            (by unfold subMeasure; simp [itemMeasure]; omega)]
          omega
        | false =>
          rw [step_lettered_noSubsection hlet st hcsub, stMeasure_handlePlain]
          omega
      | none =>
        cases hnum : numberedMatch l with
        | some p =>
          obtain ⟨n, r⟩ := p
          cases hcsub : curSubsectionExists st with
          | true =>
            rw [step_numbered_sub hnum st hcsub]
            obtain ⟨sec, hsec, hsubne⟩ := (curSubsectionExists_true_iff st).mp hcsub
            obtain ⟨sub, hsublast⟩ := exists_getLast? hsubne
            rw [stMeasure_withLastSubsection _ st sec sub (1 + (numberedSeed r).length)
              hsec hsublast (by unfold subMeasure; simp [itemMeasure]; omega)]
            omega
          | false =>
            cases hcs : curSectionExists st with
            | true =>
              rw [step_numbered_sec hnum st hcsub hcs]
              obtain ⟨sec, hsec⟩ := exists_getLast? ((curSectionExists_true_iff st).mp hcs)
              rw [stMeasure_withLastSection _ st sec (1 + (numberedSeed r).length) hsec
                (by unfold secMeasure; simp [entryMeasure]; omega)]
              omega
            | false =>
              rcases hyp with h1 | h2
              · rw [hnum] at h1
                cases h1
              · exact absurd ((curSectionExists_false_iff st).mp hcs) h2
        | none =>
          have hp : plainLine l = true := by
            simp [plainLine, hm, hsub, hlet, hnum]
          rw [step_plain hp st, stMeasure_handlePlain]
          omega

/-! ### Continuation attachment: an open numbered item absorbs the following
plain lines -/

theorem curSubsectionExists_withLastSection (f : Section → Section) (st : Structure)
    (h : ∀ sec, (f sec).subsections = sec.subsections) :
    curSubsectionExists (withLastSection f st) = curSubsectionExists st := by
  unfold curSubsectionExists
  rw [getLast?_sections_withLastSection]
  cases hs : st.sections.getLast? with
  | none => rfl
  | some sec => simp [h sec]

theorem sections_ne_withLastSection (f : Section → Section) (st : Structure)
    (h : st.sections ≠ []) : (withLastSection f st).sections ≠ [] := by
  rw [sections_withLastSection]
  intro hz
  apply h
  have hl := length_modifyLast f st.sections
  rw [hz] at hl
  simp only [List.length_nil] at hl
  exact List.length_eq_zero.mp hl.symm

theorem isEmpty_false_of_ne {l : List α} (h : l ≠ []) : l.isEmpty = false := by
  cases hs : l with
  | nil => exact absurd hs h
  | cons a as => rfl

theorem handlePlain_sub (st : Structure) (l : Str) (hne : st.sections ≠ [])
    (hcsub : curSubsectionExists st = true) :
    handlePlain st l = withLastSubsection (fun sub =>
      if sub.items.isEmpty then { sub with content := sub.content ++ [l] }
      else { sub with items := modifyLast (itemAppendLine l) sub.items }) st := by
  unfold handlePlain
  rw [isEmpty_false_of_ne hne, hcsub]
  simp

theorem handlePlain_sec (st : Structure) (l : Str) (hne : st.sections ≠ [])
    (hcsub : curSubsectionExists st = false) :
    handlePlain st l = withLastSection (fun sec =>
      match sec.content.getLast? with
      | some (.item _) =>
        { sec with content := modifyLast (fun e =>
            match e with
            | .item ni => SecEntry.item { ni with content := ni.content ++ [l] }
            | e => e) sec.content }
      | _ => { sec with content := sec.content ++ [.line l] }) st := by
  unfold handlePlain
  rw [isEmpty_false_of_ne hne, hcsub]
  simp

theorem runLines_plain_into_lastSubItem : ∀ (cs : List Str) (st : Structure)
    (pre : List SubsecItem) (ni : NumberedItem),
    (∀ c ∈ cs, plainLine c = true) →
    curSubsectionExists st = true →
    lastSubItems st = pre ++ [.numbered ni] →
    lastSubItems (runLines cs st) =
      pre ++ [.numbered { number := ni.number, content := ni.content ++ cs }]
  | [], st, pre, ni, _, _, hlast => by
    show lastSubItems st = _
    rw [hlast]
    simp
  | c :: cs, st, pre, ni, hp, hcsub, hlast => by
    obtain ⟨sec, hsec, hsubne⟩ := (curSubsectionExists_true_iff st).mp hcsub
    obtain ⟨sub, hsublast⟩ := exists_getLast? hsubne
    have hitems : sub.items = pre ++ [.numbered ni] := by
      rw [← lastSubItems_eq st sec sub hsec hsublast]
      exact hlast
    have hne : st.sections ≠ [] := by
      intro hz
      rw [hz] at hsec
      simp at hsec
    have hstep : step st c = withLastSubsection (fun sub =>
        if sub.items.isEmpty then { sub with content := sub.content ++ [c] }
        else { sub with items := modifyLast (itemAppendLine c) sub.items }) st := by
      rw [step_plain (hp c (by simp)) st]
      exact handlePlain_sub st c hne hcsub
    have hitemsne : sub.items.isEmpty = false := by
      rw [hitems]
      exact isEmpty_false_of_ne (by simp)
    have hlast2 : lastSubItems (step st c) =
        pre ++ [.numbered { number := ni.number, content := ni.content ++ [c] }] := by
      rw [hstep, lastSubItems_withLastSubsection _ st sec sub hsec hsublast]
      simp only [hitemsne, Bool.false_eq_true, if_false]
      rw [hitems, modifyLast_concat]
      rfl
    have hcsub2 : curSubsectionExists (step st c) = true := by
      rw [hstep, curSubsectionExists_withLastSubsection]
      exact hcsub
    have hrec := runLines_plain_into_lastSubItem cs (step st c) pre
      { number := ni.number, content := ni.content ++ [c] }
      (fun x hx => hp x (by simp [hx])) hcsub2 hlast2
    show lastSubItems (runLines cs (step st c)) = _
    rw [hrec]
    simp

theorem runLines_plain_into_lastSecItem : ∀ (cs : List Str) (st : Structure)
    (pre : List SecEntry) (ni : NumberedItem),
    (∀ c ∈ cs, plainLine c = true) →
    curSubsectionExists st = false →
    st.sections ≠ [] →
    lastSecContent st = pre ++ [.item ni] →
    lastSecContent (runLines cs st) =
      pre ++ [.item { number := ni.number, content := ni.content ++ cs }]
  | [], st, pre, ni, _, _, _, hlast => by
    show lastSecContent st = _
    rw [hlast]
    simp
  | c :: cs, st, pre, ni, hp, hcsub, hne, hlast => by
    obtain ⟨sec, hsec⟩ := exists_getLast? hne
    have hcontent : sec.content = pre ++ [.item ni] := by
      have := lastSecContent_withLastSection id st sec hsec
      simp only [withLastSection] at this
      unfold lastSecContent at hlast
      rw [hsec] at hlast
      exact hlast
    have hstep : step st c = withLastSection (fun sec =>
        match sec.content.getLast? with
        | some (.item _) =>
          { sec with content := modifyLast (fun e =>
              match e with
              | .item ni => SecEntry.item { ni with content := ni.content ++ [c] }
              | e => e) sec.content }
        | _ => { sec with content := sec.content ++ [.line c] }) st := by
      rw [step_plain (hp c (by simp)) st]
      exact handlePlain_sec st c hne hcsub
    have hgl : sec.content.getLast? = some (.item ni) := by
      rw [hcontent, List.getLast?_concat]
    have hlast2 : lastSecContent (step st c) =
        pre ++ [.item { number := ni.number, content := ni.content ++ [c] }] := by
      rw [hstep, lastSecContent_withLastSection _ st sec hsec]
      simp only [hgl]
      rw [hcontent, modifyLast_concat]
    have hcsub2 : curSubsectionExists (step st c) = false := by
      rw [hstep, curSubsectionExists_withLastSection]
      · exact hcsub
      · intro s
        cases hgl2 : s.content.getLast? with
        | none => rfl
        | some e =>
          cases e with
          | item ni2 => rfl
          | line s2 => rfl
    have hne2 : (step st c).sections ≠ [] := by
      rw [hstep]
      exact sections_ne_withLastSection _ st hne
    have hrec := runLines_plain_into_lastSecItem cs (step st c) pre
      { number := ni.number, content := ni.content ++ [c] }
      (fun x hx => hp x (by simp [hx])) hcsub2 hne2 hlast2
    show lastSecContent (runLines cs (step st c)) = _
    rw [hrec]
    simp

theorem runLines_numbered_sub (st : Structure) (h : Str) (cs : List Str) (n r : Str)
    (hm : numberedMatch h = some (n, r)) (hcsub : curSubsectionExists st = true)
    (hplain : ∀ c ∈ cs, plainLine c = true) :
    lastSubItems (runLines (h :: cs) st) =
      lastSubItems st ++ [.numbered { number := n, content := numberedSeed r ++ cs }] := by
  obtain ⟨sec, hsec, hsubne⟩ := (curSubsectionExists_true_iff st).mp hcsub
  obtain ⟨sub, hsublast⟩ := exists_getLast? hsubne
  have hstep := step_numbered_sub hm st hcsub
  have hlast1 : lastSubItems (step st h) =
      sub.items ++ [.numbered { number := n, content := numberedSeed r }] := by
    rw [hstep, lastSubItems_withLastSubsection _ st sec sub hsec hsublast]
  have hcsub1 : curSubsectionExists (step st h) = true := by
    rw [hstep, curSubsectionExists_withLastSubsection]
    exact hcsub
  have hrec := runLines_plain_into_lastSubItem cs (step st h) sub.items
    { number := n, content := numberedSeed r } hplain hcsub1 hlast1
  show lastSubItems (runLines cs (step st h)) = _
  rw [hrec, lastSubItems_eq st sec sub hsec hsublast]

theorem runLines_numbered_sec (st : Structure) (h : Str) (cs : List Str) (n r : Str)
    (hm : numberedMatch h = some (n, r)) (hcsub : curSubsectionExists st = false)
    (hcs : curSectionExists st = true)
    (hplain : ∀ c ∈ cs, plainLine c = true) :
    lastSecContent (runLines (h :: cs) st) =
      lastSecContent st ++ [.item { number := n, content := numberedSeed r ++ cs }] := by
  have hne := (curSectionExists_true_iff st).mp hcs
  obtain ⟨sec, hsec⟩ := exists_getLast? hne
  have hstep := step_numbered_sec hm st hcsub hcs
  have hlast1 : lastSecContent (step st h) =
      sec.content ++ [.item { number := n, content := numberedSeed r }] := by
    rw [hstep, lastSecContent_withLastSection _ st sec hsec]
  have hcsub1 : curSubsectionExists (step st h) = false := by
    rw [hstep, curSubsectionExists_withLastSection]
    · exact hcsub
    · intro s
      rfl
  have hne1 : (step st h).sections ≠ [] := by
    rw [hstep]
    exact sections_ne_withLastSection _ st hne
  have hrec := runLines_plain_into_lastSecItem cs (step st h) sec.content
    { number := n, content := numberedSeed r } hplain hcsub1 hne1 hlast1
  show lastSecContent (runLines cs (step st h)) = _
  rw [hrec]
  unfold lastSecContent
  rw [hsec]

/-! ### Serializer query lemmas -/

theorem pTexts_fn_pElem (x : Str) :
    (fun c => if tagOf c = str "p" then textOf c else none) (pElem x) = some x := by
  show (if tagOf (pElem x) = str "p" then textOf (pElem x) else none) = some x
  rw [show tagOf (pElem x) = str "p" from rfl, if_pos rfl]
  rfl

theorem filterMap_pTexts_map_pElem (ls : List Str) :
    (ls.map pElem).filterMap (fun c => if tagOf c = str "p" then textOf c else none)
      = ls := by
  rw [List.filterMap_map]
  have h2 : ((fun c => if tagOf c = str "p" then textOf c else none) ∘ pElem) =
      fun x : Str => some x := funext (fun x => pTexts_fn_pElem x)
  rw [h2]
  simp

theorem pTexts_itemElem (listId : Str) (it : NumberedItem) :
    pTexts (itemElem listId it) = it.content := by
  unfold pTexts itemElem
  rw [childrenOf_el]
  rw [List.filterMap_cons]
  rw [show tagOf (el "num" [] (some (str "(" ++ it.number ++ str ")")) []) = str "num"
    from rfl]
  rw [if_neg (show ¬ (str "num" = str "p") by decide)]
  exact filterMap_pTexts_map_pElem it.content

theorem pTexts_content_of_lines (ls : List Str) :
    pTexts (el "content" [] none (ls.map pElem)) = ls := by
  unfold pTexts
  rw [childrenOf_el]
  exact filterMap_pTexts_map_pElem ls

theorem elemsWithTag_el (tg tag : Str) (attrs : List (Str × Str)) (tx : Option Str)
    (cs : XmlList) :
    elemsWithTag tg (.el tag attrs tx cs) =
      (if tag = tg then [Xml.el tag attrs tx cs] else []) ++ elemsWithTagL tg cs := rfl

theorem elemsWithTag_ne (tg : Str) (tag : String) (attrs : List (Str × Str))
    (tx : Option Str) (cs : List Xml) (h : ¬ (str tag = tg)) :
    elemsWithTag tg (el tag attrs tx cs) = (cs.map (elemsWithTag tg)).flatten := by
  show (if str tag = tg then _ else []) ++ elemsWithTagL tg (.ofList cs) = _
  rw [if_neg h, elemsWithTagL_ofList]
  simp

theorem elemsWithTag_self (tg : String) (attrs : List (Str × Str))
    (tx : Option Str) (cs : List Xml) :
    elemsWithTag (str tg) (el tg attrs tx cs) =
      Xml.el (str tg) attrs tx (.ofList cs) :: (cs.map (elemsWithTag (str tg))).flatten := by
  show (if str tg = str tg then _ else []) ++ elemsWithTagL (str tg) (.ofList cs) = _
  rw [if_pos rfl, elemsWithTagL_ofList]
  simp

theorem elems_pElem (tg : Str) (hne : ¬ (str "p" = tg)) (l : Str) :
    elemsWithTag tg (pElem l) = [] := by
  unfold pElem
  rw [elemsWithTag_ne tg "p" _ _ _ hne]
  simp

theorem elems_map_pElem (tg : Str) (hne : ¬ (str "p" = tg)) (ls : List Str) :
    ((ls.map pElem).map (elemsWithTag tg)).flatten = [] := by
  rw [List.map_map]
  rw [List.flatten_eq_nil_iff]
  intro m hm
  obtain ⟨x, hx, rfl⟩ := List.mem_map.mp hm
  exact elems_pElem tg hne x

theorem elems_meta_section (cfg : Config) (pd an : Str) :
    elemsWithTag (str "section") (metaElem cfg pd an) = [] := rfl

theorem elems_meta_subsection (cfg : Config) (pd an : Str) :
    elemsWithTag (str "subsection") (metaElem cfg pd an) = [] := rfl

theorem elems_meta_blockList (cfg : Config) (pd an : Str) :
    elemsWithTag (str "blockList") (metaElem cfg pd an) = [] := rfl

theorem elems_meta_item (cfg : Config) (pd an : Str) :
    elemsWithTag (str "item") (metaElem cfg pd an) = [] := rfl

theorem elems_meta_preamble (cfg : Config) (pd an : Str) :
    elemsWithTag (str "preamble") (metaElem cfg pd an) = [] := rfl

/-- For a tag that names none of the fixed wrapper elements, the tagged
elements of the whole output are exactly the tagged elements of the
serialized sections. -/
theorem elems_buildXml (tg : Str) (cfg : Config) (pd : Str) (st : Structure)
    (title an : Str)
    (hmeta : elemsWithTag tg (metaElem cfg pd an) = [])
    (h1 : ¬ (str "akomaNtoso" = tg)) (h2 : ¬ (str "act" = tg))
    (h3 : ¬ (str "preface" = tg)) (h4 : ¬ (str "p" = tg))
    (h5 : ¬ (str "docType" = tg)) (h6 : ¬ (str "preamble" = tg))
    (h7 : ¬ (str "body" = tg)) :
    elemsWithTag tg (buildXml cfg pd st title an) =
      ((st.sections.map sectionElem).map (elemsWithTag tg)).flatten := by
  unfold buildXml
  rw [elemsWithTag_ne tg "akomaNtoso" _ _ _ h1]
  simp only [List.map_cons, List.map_nil, List.flatten_cons, List.flatten_nil,
    List.append_nil]
  rw [elemsWithTag_ne tg "act" _ _ _ h2]
  have hpreface : elemsWithTag tg
      (el "preface" [] none [el "p" [] none [el "docType" [] (some title) []]]) = [] := by
    rw [elemsWithTag_ne tg "preface" _ _ _ h3]
    simp only [List.map_cons, List.map_nil, List.flatten_cons, List.flatten_nil,
      List.append_nil]
    rw [elemsWithTag_ne tg "p" _ _ _ h4]
    simp only [List.map_cons, List.map_nil, List.flatten_cons, List.flatten_nil,
      List.append_nil]
    rw [elemsWithTag_ne tg "docType" _ _ _ h5]
    simp
  have hpreambleE : elemsWithTag tg (el "preamble" [] none (st.preamble.map pElem)) = [] := by
    rw [elemsWithTag_ne tg "preamble" _ _ _ h6]
    exact elems_map_pElem tg h4 st.preamble
  have hbody : elemsWithTag tg (el "body" [] none (st.sections.map sectionElem)) =
      ((st.sections.map sectionElem).map (elemsWithTag tg)).flatten := by
    rw [elemsWithTag_ne tg "body" _ _ _ h7]
  by_cases ht : title.isEmpty = true <;> by_cases hp : st.preamble.isEmpty = true <;>
    simp [ht, hp, hmeta, hpreface, hpreambleE, hbody]

theorem elemsWithTagL_append (tg : Str) : ∀ (xs ys : XmlList),
    elemsWithTagL tg (xs.append ys) = elemsWithTagL tg xs ++ elemsWithTagL tg ys
  | .nil, ys => rfl
  | .cons x xs, ys => by
    simp [XmlList.append, elemsWithTagL, elemsWithTagL_append tg xs ys]

theorem elems_leaf (tg : Str) (tag : String) (attrs : List (Str × Str)) (tx : Option Str)
    (h : ¬ (str tag = tg)) : elemsWithTag tg (el tag attrs tx []) = [] := by
  rw [elemsWithTag_ne tg tag _ _ _ h]
  rfl

theorem elems_map_nil {α : Type} (tg : Str) (f : α → Xml) (xs : List α)
    (h : ∀ x, elemsWithTag tg (f x) = []) :
    ((xs.map f).map (elemsWithTag tg)).flatten = [] := by
  rw [List.map_map, List.flatten_eq_nil_iff]
  intro m hm
  obtain ⟨x, hx, rfl⟩ := List.mem_map.mp hm
  exact h x

theorem elems_flatten_nil_of_mem (tg : Str) (ys : List Xml)
    (h : ∀ x ∈ ys, elemsWithTag tg x = []) :
    (ys.map (elemsWithTag tg)).flatten = [] := by
  rw [List.flatten_eq_nil_iff]
  intro m hm
  obtain ⟨x, hx, rfl⟩ := List.mem_map.mp hm
  exact h x hx

theorem mem_modifyLast {f : α → α} {xs : List α} {x : α} (h : x ∈ modifyLast f xs) :
    x ∈ xs ∨ ∃ y, y ∈ xs ∧ x = f y := by
  rcases List.eq_nil_or_concat xs with rfl | ⟨ys, a, rfl⟩
  · simp [modifyLast] at h
  · simp only [List.concat_eq_append, modifyLast_concat] at h
    rcases List.mem_append.mp h with h1 | h2
    · exact Or.inl (by simp [h1])
    · exact Or.inr ⟨a, by simp, by simpa using h2⟩

theorem elems_section_itemElem (lid : Str) (it : NumberedItem) :
    elemsWithTag (str "section") (itemElem lid it) = [] := by
  unfold itemElem
  rw [elemsWithTag_ne _ "item" _ _ _ (by decide)]
  simp only [List.map_cons, List.flatten_cons]
  rw [elems_leaf _ "num" _ _ (by decide)]
  simp only [List.nil_append]
  exact elems_map_pElem _ (by decide) it.content

theorem elems_section_letterElem (sid : Str) (li : LetteredItem) :
    elemsWithTag (str "section") (letterElem sid li) = [] := by
  unfold letterElem
  rw [elemsWithTag_ne _ "subsection" _ _ _ (by decide)]
  simp only [List.map_cons, List.map_nil, List.flatten_cons, List.flatten_nil,
    List.append_nil]
  rw [elems_leaf _ "num" _ _ (by decide)]
  rw [elemsWithTag_ne _ "content" _ _ _ (by decide)]
  simp only [List.nil_append]
  exact elems_map_pElem _ (by decide) li.content

theorem elems_section_pushed (sid : Str) (li : LetteredItem) (lines : List Str) :
    elemsWithTag (str "section")
      (pushIntoLastChild (lines.map pElem) (letterElem sid li)) = [] := by
  unfold pushIntoLastChild letterElem el appendChildren
  show elemsWithTag (str "section") (.el (str "subsection") _ none _) = []
  rw [elemsWithTag_el]
  rw [if_neg (by decide)]
  show elemsWithTagL (str "section")
    (.cons (.el (str "num") [] (some (str "(" ++ [li.letter] ++ str ")")) (.ofList []))
      (.cons (.el (str "content") [] none
        ((XmlList.ofList (li.content.map pElem)).append
          (.ofList (lines.map pElem)))) .nil)) = []
  show elemsWithTag (str "section")
      (.el (str "num") [] (some (str "(" ++ [li.letter] ++ str ")")) (.ofList [])) ++
    (elemsWithTag (str "section")
      (.el (str "content") [] none
        ((XmlList.ofList (li.content.map pElem)).append
          (.ofList (lines.map pElem)))) ++ []) = []
  rw [elemsWithTag_el, if_neg (by decide), elemsWithTag_el, if_neg (by decide)]
  rw [elemsWithTagL_append]
  simp only [elemsWithTagL_ofList, List.map_nil, List.flatten_nil]
  rw [elems_map_pElem _ (show ¬ (str "p" = str "section") by decide) li.content,
    elems_map_pElem _ (show ¬ (str "p" = str "section") by decide) lines]
  rfl

theorem elems_section_contentBlock (listId : Str) (items : List NumberedItem)
    (ps : List Str) :
    elemsWithTag (str "section")
      (el "content" [] none
        (el "blockList" [(str "eId", listId)] none (items.map (itemElem listId))
          :: ps.map pElem)) = [] := by
  rw [elemsWithTag_ne _ "content" _ _ _ (by decide)]
  simp only [List.map_cons, List.flatten_cons]
  rw [elemsWithTag_ne _ "blockList" _ _ _ (by decide)]
  rw [elems_map_nil _ _ _ (fun it => elems_section_itemElem listId it)]
  simp only [List.nil_append]
  exact elems_map_pElem _ (by decide) ps

theorem elems_section_plainContent (ps : List Str) :
    elemsWithTag (str "section") (el "content" [] none (ps.map pElem)) = [] := by
  rw [elemsWithTag_ne _ "content" _ _ _ (by decide)]
  exact elems_map_pElem _ (by decide) ps

theorem elems_section_subsecElem (secId : Str) (sub : Subsection) :
    elemsWithTag (str "section") (subsecElem secId sub) = [] := by
  unfold subsecElem
  rw [elemsWithTag_ne _ "subsection" _ _ _ (by decide)]
  apply elems_flatten_nil_of_mem
  intro x hx
  simp only [List.mem_cons, List.mem_append] at hx
  rcases hx with (rfl | hx) | hx
  · exact elems_leaf _ "num" _ _ (by decide)
  · by_cases hh : sub.heading.isEmpty = true
    · simp [hh] at hx
    · simp only [hh, Bool.false_eq_true, if_false, List.mem_cons, List.not_mem_nil,
        or_false] at hx
      subst hx
      exact elems_leaf _ "heading" _ _ (by decide)
  · by_cases h12 : (sub.content.isEmpty && sub.items.isEmpty) = true
    · simp [h12] at hx
    · simp only [h12, Bool.false_eq_true, if_false] at hx
      by_cases hn : (subNumbered sub.items).isEmpty = true
      · simp only [hn, Bool.not_true, Bool.false_eq_true, if_false] at hx
        by_cases hl : (subLettered sub.items).isEmpty = true
        · simp only [hl, Bool.not_true, Bool.false_eq_true, if_false] at hx
          simp only [List.mem_cons, List.not_mem_nil, or_false] at hx
          subst hx
          exact elems_section_plainContent sub.content
        · simp only [hl, Bool.not_false, if_true] at hx
          by_cases hc : sub.content.isEmpty = true
          · simp only [hc, if_true] at hx
            obtain ⟨li, hli, rfl⟩ := List.mem_map.mp hx
            exact elems_section_letterElem _ li
          · simp only [hc, Bool.false_eq_true, if_false] at hx
            rcases mem_modifyLast hx with hmem | ⟨y, hy, rfl⟩
            · obtain ⟨li, hli, rfl⟩ := List.mem_map.mp hmem
              exact elems_section_letterElem _ li
            · obtain ⟨li, hli, rfl⟩ := List.mem_map.mp hy
              exact elems_section_pushed _ li sub.content
      · simp only [hn, Bool.not_false, if_true] at hx
        rcases List.mem_append.mp hx with hmem | hmem
        · obtain ⟨li, hli, rfl⟩ := List.mem_map.mp hmem
          exact elems_section_letterElem _ li
        · simp only [List.mem_cons, List.not_mem_nil, or_false] at hmem
          subst hmem
          exact elems_section_contentBlock _ (subNumbered sub.items) sub.content

theorem elems_section_sectionElem (sec : Section) :
    elemsWithTag (str "section") (sectionElem sec) = [sectionElem sec] := by
  unfold sectionElem
  rw [elemsWithTag_self]
  have hnil : (((el "num" [] (some (str "Sec. " ++ sec.number ++ str ".")) [] ::
      (if sec.heading.isEmpty = true then []
        else [el "heading" [] (some sec.heading) []]) ++
      (if sec.content.isEmpty = true then []
       else
        if hasNumberedItems sec.content = true then
          [el "content" [] none
            (el "blockList"
              [(str "eId", str "sec_" ++ replaceDots sec.number ++ str "__list_1")] none
              ((secItems sec.content).map
                (itemElem (str "sec_" ++ replaceDots sec.number ++ str "__list_1")))
              :: (secLines sec.content).map pElem)]
        else [el "content" [] none ((secLines sec.content).map pElem)]) ++
      sec.subsections.map (subsecElem (str "sec_" ++ replaceDots sec.number)))).map
        (elemsWithTag (str "section"))).flatten = [] := by
    apply elems_flatten_nil_of_mem
    intro x hx
    simp only [List.mem_cons, List.mem_append] at hx
    rcases hx with ((rfl | hx) | hx) | hx
    · exact elems_leaf _ "num" _ _ (by decide)
    · by_cases hh : sec.heading.isEmpty = true
      · simp [hh] at hx
      · simp only [hh, Bool.false_eq_true, if_false, List.mem_cons, List.not_mem_nil,
          or_false] at hx
        subst hx
        exact elems_leaf _ "heading" _ _ (by decide)
    · by_cases hc : sec.content.isEmpty = true
      · simp [hc] at hx
      · simp only [hc, Bool.false_eq_true, if_false] at hx
        by_cases hi : hasNumberedItems sec.content = true
        · simp only [hi, if_true, List.mem_cons, List.not_mem_nil, or_false] at hx
          subst hx
          exact elems_section_contentBlock _ (secItems sec.content) (secLines sec.content)
        · simp only [hi, Bool.false_eq_true, if_false, List.mem_cons, List.not_mem_nil,
            or_false] at hx
          subst hx
          exact elems_section_plainContent (secLines sec.content)
    · obtain ⟨s, hs, rfl⟩ := List.mem_map.mp hx
      exact elems_section_subsecElem _ s
  rw [hnil]
  rfl

theorem bodyOf_buildXml (cfg : Config) (pd : Str) (st : Structure) (title an : Str) :
    bodyOf (buildXml cfg pd st title an) =
      some (el "body" [] none (st.sections.map sectionElem)) := by
  unfold bodyOf actOf buildXml
  rw [childrenOf_el]
  simp only [List.head?_cons, Option.some_bind]
  rw [childrenOf_el]
  by_cases ht : title.isEmpty = true <;> by_cases hp : st.preamble.isEmpty = true <;>
    simp [ht, hp, List.getLast?_append]

theorem metaOf_buildXml (cfg : Config) (pd : Str) (st : Structure) (title an : Str) :
    metaOf (buildXml cfg pd st title an) = some (metaElem cfg pd an) := by
  unfold metaOf actOf buildXml
  rw [childrenOf_el]
  simp only [List.head?_cons, Option.some_bind]
  rw [childrenOf_el]
  simp

theorem elems_convert_section (cfg : Config) (pd t title an : Str) :
    elemsWithTag (str "section") (convertXml cfg pd t title an) =
      (((parseText t).sections.map sectionElem).map
        (elemsWithTag (str "section"))).flatten :=
  elems_buildXml _ cfg pd _ title an (elems_meta_section cfg pd an) (by decide) (by decide)
    (by decide) (by decide) (by decide) (by decide) (by decide)

theorem elems_convert_subsection (cfg : Config) (pd t title an : Str) :
    elemsWithTag (str "subsection") (convertXml cfg pd t title an) =
      (((parseText t).sections.map sectionElem).map
        (elemsWithTag (str "subsection"))).flatten :=
  elems_buildXml _ cfg pd _ title an (elems_meta_subsection cfg pd an) (by decide)
    (by decide) (by decide) (by decide) (by decide) (by decide) (by decide)

theorem elems_convert_blockList (cfg : Config) (pd t title an : Str) :
    elemsWithTag (str "blockList") (convertXml cfg pd t title an) =
      (((parseText t).sections.map sectionElem).map
        (elemsWithTag (str "blockList"))).flatten :=
  elems_buildXml _ cfg pd _ title an (elems_meta_blockList cfg pd an) (by decide)
    (by decide) (by decide) (by decide) (by decide) (by decide) (by decide)

theorem elems_convert_item (cfg : Config) (pd t title an : Str) :
    elemsWithTag (str "item") (convertXml cfg pd t title an) =
      (((parseText t).sections.map sectionElem).map
        (elemsWithTag (str "item"))).flatten :=
  elems_buildXml _ cfg pd _ title an (elems_meta_item cfg pd an) (by decide)
    (by decide) (by decide) (by decide) (by decide) (by decide) (by decide)

theorem flatten_map_singleton (f : α → β) : ∀ (l : List α),
    (l.map (fun x => [f x])).flatten = l.map f
  | [] => rfl
  | x :: xs => by simp [flatten_map_singleton f xs]

theorem length_filterMap_sectionCaptures : ∀ (ls : List Str),
    (ls.filterMap (fun l => (sectionMatch l).map Prod.fst)).length =
      (ls.filter (fun l => (sectionMatch l).isSome)).length
  | [] => rfl
  | l :: ls => by
    cases hm : sectionMatch l <;>
      simp [List.filterMap_cons, List.filter_cons, hm,
        length_filterMap_sectionCaptures ls]

theorem eIdOf_sectionElem (sec : Section) :
    eIdOf (sectionElem sec) = some (str "sec_" ++ replaceDots sec.number) := by
  unfold sectionElem eIdOf attrsOf el
  simp [List.lookup]

theorem elems_flat_sections (cfg : Config) (pd t title an : Str) :
    elemsWithTag (str "section") (convertXml cfg pd t title an) =
      (parseText t).sections.map sectionElem := by
  rw [elems_convert_section cfg pd t title an, List.map_map]
  have h : (elemsWithTag (str "section")) ∘ sectionElem =
      fun s : Section => [sectionElem s] := funext (fun s => elems_section_sectionElem s)
  rw [h, flatten_map_singleton]

theorem parseText_whitespace (t : Str) (h : ∀ c ∈ t, pySpace c = true) :
    parseText t = { preamble := [], sections := [] } := by
  have hstrip : strip t = [] := by
    unfold strip
    rw [List.dropWhile_eq_nil_iff.mpr h]
    rfl
  unfold parseText cleanLines
  rw [hstrip]
  rfl

theorem elems_preamble_buildXml_degenerate (cfg : Config) (pd title an : Str) :
    elemsWithTag (str "preamble")
      (buildXml cfg pd { preamble := [], sections := [] } title an) = [] := by
  unfold buildXml
  rw [elemsWithTag_ne _ "akomaNtoso" _ _ _ (by decide)]
  simp only [List.map_cons, List.map_nil, List.flatten_cons, List.flatten_nil,
    List.append_nil]
  rw [elemsWithTag_ne _ "act" _ _ _ (by decide)]
  have hpreface : elemsWithTag (str "preamble")
      (el "preface" [] none [el "p" [] none [el "docType" [] (some title) []]]) = [] := by
    rw [elemsWithTag_ne _ "preface" _ _ _ (by decide)]
    simp only [List.map_cons, List.map_nil, List.flatten_cons, List.flatten_nil,
      List.append_nil]
    rw [elemsWithTag_ne _ "p" _ _ _ (by decide)]
    simp only [List.map_cons, List.map_nil, List.flatten_cons, List.flatten_nil,
      List.append_nil]
    rw [elems_leaf _ "docType" _ _ (by decide)]
  have hbody : elemsWithTag (str "preamble") (el "body" [] none []) = [] :=
    elems_leaf _ "body" _ _ (by decide)
  by_cases ht : title.isEmpty = true <;>
    simp [ht, elems_meta_preamble, hpreface, hbody]

theorem sections_map_number_runLines : ∀ (ls : List Str) (st : Structure),
    (runLines ls st).sections.map Section.number =
      st.sections.map Section.number ++
        ls.filterMap (fun l => (sectionMatch l).map Prod.fst)
  | [], st => by simp [runLines]
  | l :: ls, st => by
    have hrec := sections_map_number_runLines ls (step st l)
    show (runLines ls (step st l)).sections.map Section.number = _
    rw [hrec]
    cases hm : sectionMatch l with
    | none =>
      rw [sections_map_number_step hm]
      simp [List.filterMap_cons, hm]
    | some p =>
      obtain ⟨n, h⟩ := p
      rw [step_section hm]
      simp [List.filterMap_cons, hm]

/-! ### Query lemmas for the subsection serializer (free-form content
placement) -/

theorem pTexts_cons_nonp (bl : Xml) (h : ¬ (tagOf bl = str "p")) (ls : List Str) :
    pTexts (el "content" [] none (bl :: ls.map pElem)) = ls := by
  unfold pTexts
  rw [childrenOf_el, List.filterMap_cons, if_neg h]
  exact filterMap_pTexts_map_pElem ls

theorem tagOf_letterElem (sid : Str) (li : LetteredItem) :
    tagOf (letterElem sid li) = str "subsection" := rfl

theorem tagOf_pushIntoLastChild (ps : List Xml) (x : Xml) :
    tagOf (pushIntoLastChild ps x) = tagOf x := by
  cases x
  rfl

theorem childrenWithTag_content_letterElem (sid : Str) (li : LetteredItem) :
    childrenWithTag (str "content") (letterElem sid li) =
      [el "content" [] none (li.content.map pElem)] := rfl

theorem pTexts_letterElem (sid : Str) (li : LetteredItem) :
    (childrenWithTag (str "content") (letterElem sid li)).map pTexts = [li.content] := by
  rw [childrenWithTag_content_letterElem]
  simp [pTexts_content_of_lines]

theorem pTexts_pushed_letterElem (sid : Str) (li : LetteredItem) (lines : List Str) :
    (childrenWithTag (str "content")
        (pushIntoLastChild (lines.map pElem) (letterElem sid li))).map pTexts =
      [li.content ++ lines] := by
  show [pTexts (.el (str "content") [] none
    ((XmlList.ofList (li.content.map pElem)).append
      (.ofList (lines.map pElem))))] = [li.content ++ lines]
  have h : pTexts (.el (str "content") [] none
      ((XmlList.ofList (li.content.map pElem)).append
        (.ofList (lines.map pElem)))) = li.content ++ lines := by
    unfold pTexts
    show List.filterMap (fun c => if tagOf c = str "p" then textOf c else none)
      (((XmlList.ofList (li.content.map pElem)).append
        (.ofList (lines.map pElem))).toList) = _
    rw [toList_append, toList_ofList, toList_ofList, List.filterMap_append,
      filterMap_pTexts_map_pElem, filterMap_pTexts_map_pElem]
  rw [h]

theorem map_modifyLast_map (k : α → β) (f : β → β) (g : β → γ) (h : γ → γ)
    (xs : List α) (hc : ∀ x, g (f (k x)) = h (g (k x))) :
    (modifyLast f (xs.map k)).map g = modifyLast h ((xs.map k).map g) := by
  rcases List.eq_nil_or_concat xs with rfl | ⟨ys, a, rfl⟩
  · rfl
  · simp only [List.concat_eq_append, List.map_append, List.map_cons, List.map_nil]
    rw [modifyLast_concat, modifyLast_concat]
    simp [hc]

theorem filter_tag_letteredElems (sid : Str) (t : Str) (ls : List LetteredItem)
    (h : (str "subsection" == t) = false) :
    (ls.map (letterElem sid)).filter (fun c => tagOf c == t) = [] := by
  rw [List.filter_eq_nil_iff]
  intro x hx
  obtain ⟨li, hli, rfl⟩ := List.mem_map.mp hx
  rw [tagOf_letterElem, h]
  simp

theorem filter_tag_letteredElems_self (sid : Str) (ls : List LetteredItem) :
    (ls.map (letterElem sid)).filter (fun c => tagOf c == str "subsection") =
      ls.map (letterElem sid) := by
  rw [List.filter_eq_self]
  intro x hx
  obtain ⟨li, hli, rfl⟩ := List.mem_map.mp hx
  rw [tagOf_letterElem]
  simp

theorem filter_tag_modifyLast_pushed (sid : Str) (ps : List Xml) (t : Str)
    (ls : List LetteredItem) (h : (str "subsection" == t) = false) :
    (modifyLast (pushIntoLastChild ps) (ls.map (letterElem sid))).filter
      (fun c => tagOf c == t) = [] := by
  rw [List.filter_eq_nil_iff]
  intro x hx
  rcases mem_modifyLast hx with hmem | ⟨y, hy, rfl⟩
  · obtain ⟨li, hli, rfl⟩ := List.mem_map.mp hmem
    rw [tagOf_letterElem, h]
    simp
  · obtain ⟨li, hli, rfl⟩ := List.mem_map.mp hy
    rw [tagOf_pushIntoLastChild, tagOf_letterElem, h]
    simp

theorem filter_tag_modifyLast_pushed_self (sid : Str) (ps : List Xml)
    (ls : List LetteredItem) :
    (modifyLast (pushIntoLastChild ps) (ls.map (letterElem sid))).filter
      (fun c => tagOf c == str "subsection") =
      modifyLast (pushIntoLastChild ps) (ls.map (letterElem sid)) := by
  rw [List.filter_eq_self]
  intro x hx
  rcases mem_modifyLast hx with hmem | ⟨y, hy, rfl⟩
  · obtain ⟨li, hli, rfl⟩ := List.mem_map.mp hmem
    rw [tagOf_letterElem]
    simp
  · obtain ⟨li, hli, rfl⟩ := List.mem_map.mp hy
    rw [tagOf_pushIntoLastChild, tagOf_letterElem]
    simp

theorem tagOf_el (tag : String) (attrs : List (Str × Str)) (tx : Option Str)
    (cs : List Xml) : tagOf (el tag attrs tx cs) = str tag := rfl

theorem childrenWithTag_el (t : Str) (tag : String) (attrs : List (Str × Str))
    (tx : Option Str) (cs : List Xml) :
    childrenWithTag t (el tag attrs tx cs) = cs.filter (fun c => tagOf c == t) := by
  unfold childrenWithTag
  rw [childrenOf_el]

/-! ### Claim theorems -/

/-- C3 (counterexample): for the input
`"Sec. 1. T.\n§ 1. P.\nintro line.\n(a) Letter a."` the subsection's
free-form line `"intro line."` is rendered as a `p` **inside the lettered
item's nested subsection element** (after `"Letter a."`), and the subsection
element itself has no `content` child at all — contradicting the claim that
such lines are always placed in the subsection's own content element and
never inside a lettered item's element. -/
theorem c3_counterexample :
    ((elemsWithTag (str "subsection")
      (convertXml cfgSample pdSample
        (str "Sec. 1. T.\n§ 1. P.\nintro line.\n(a) Letter a.")
        (str "Statute") (str "X1"))).filterMap
      (fun e => if eIdOf e = some (str "sec_1__subsec_1__subsec_a")
        then some ((childrenWithTag (str "content") e).map pTexts) else none)) =
      [[[str "Letter a.", str "intro line."]]] ∧
    ((elemsWithTag (str "subsection")
      (convertXml cfgSample pdSample
        (str "Sec. 1. T.\n§ 1. P.\nintro line.\n(a) Letter a.")
        (str "Statute") (str "X1"))).filterMap
      (fun e => if eIdOf e = some (str "sec_1__subsec_1")
        then some (childrenWithTag (str "content") e) else none)) = [[]] := by
  constructor
  · rw [elems_convert_subsection]
    decide
  · rw [elems_convert_subsection]
    decide

/-- C3 (amended): where a Subsection's free-form content lines are rendered
depends on its items.  If it has numbered items, the lines are `p` elements
of the subsection's own content element (after the blockList); if it has no
items at all, of a newly created content element; but if it has lettered
items and no numbered items, the subsection element gets **no** content
child of its own and the lines are appended as `p` elements into the last
lettered item's nested subsection element (inside its content child, after
that item's own lines). -/
theorem c3_amended (sid : Str) (sub : Subsection) (hc : sub.content ≠ []) :
    (subNumbered sub.items ≠ [] →
      (childrenWithTag (str "content") (subsecElem sid sub)).map pTexts =
        [sub.content]) ∧
    (subNumbered sub.items = [] → subLettered sub.items = [] →
      (childrenWithTag (str "content") (subsecElem sid sub)).map pTexts =
        [sub.content]) ∧
    (subNumbered sub.items = [] → subLettered sub.items ≠ [] →
      childrenWithTag (str "content") (subsecElem sid sub) = [] ∧
      (childrenWithTag (str "subsection") (subsecElem sid sub)).map
          (fun le => (childrenWithTag (str "content") le).map pTexts) =
        modifyLast (fun v => v.map (fun w => w ++ sub.content))
          ((subLettered sub.items).map (fun li => [li.content]))) := by
  have hce : sub.content.isEmpty = false := isEmpty_false_of_ne hc
  have e1 : (str "num" == str "content") = false := by decide
  have e2 : (str "heading" == str "content") = false := by decide
  have e3 : (str "subsection" == str "content") = false := by decide
  have e4 : (str "content" == str "content") = true := by decide
  have e5 : (str "num" == str "subsection") = false := by decide
  have e6 : (str "heading" == str "subsection") = false := by decide
  have e7 : (str "content" == str "subsection") = false := by decide
  have hfl : ∀ (s : Str) (ls : List LetteredItem),
      (ls.map (letterElem s)).filter (fun c => tagOf c == str "content") = [] :=
    fun s ls => filter_tag_letteredElems s (str "content") ls e3
  have hfm : ∀ (s : Str),
      (modifyLast (pushIntoLastChild (sub.content.map pElem))
        ((subLettered sub.items).map (letterElem s))).filter
        (fun c => tagOf c == str "content") = [] :=
    fun s => filter_tag_modifyLast_pushed s _ (str "content") _ e3
  have hfm2 : ∀ (s : Str),
      (modifyLast (pushIntoLastChild (sub.content.map pElem))
        ((subLettered sub.items).map (letterElem s))).filter
        (fun c => tagOf c == str "subsection") =
      modifyLast (pushIntoLastChild (sub.content.map pElem))
        ((subLettered sub.items).map (letterElem s)) :=
    fun s => filter_tag_modifyLast_pushed_self s _ _
  refine ⟨?_, ?_, ?_⟩
  · intro hn
    have hnb : (subNumbered sub.items).isEmpty = false := isEmpty_false_of_ne hn
    unfold childrenWithTag
    simp only [subsecElem, hce, Bool.false_and, Bool.false_eq_true, if_false, hnb,
      Bool.not_false, if_true]
    rw [childrenOf_el]
    by_cases hh : sub.heading.isEmpty = true <;>
      simp only [hh, if_true, Bool.false_eq_true, if_false, List.cons_append,
        List.nil_append, List.filter_cons, List.filter_append, List.filter_nil,
        tagOf_el, e1, e2, e4, hfl,
        List.nil_append, List.append_nil, List.map_cons, List.map_nil] <;>
      rw [pTexts_cons_nonp _ (by rw [tagOf_el]; decide) sub.content]
  · intro hn hl
    unfold childrenWithTag
    simp only [subsecElem, hce, Bool.false_and, Bool.false_eq_true, if_false, hn, hl,
      List.isEmpty_nil, Bool.not_true, if_false, List.map_nil]
    rw [childrenOf_el]
    by_cases hh : sub.heading.isEmpty = true <;>
      simp only [hh, if_true, Bool.false_eq_true, if_false, List.cons_append,
        List.nil_append, List.filter_cons, List.filter_append, List.filter_nil,
        tagOf_el, e1, e2, e4, List.nil_append, List.append_nil, List.map_cons,
        List.map_nil] <;>
      rw [pTexts_content_of_lines]
  · intro hn hl
    have hlb : (subLettered sub.items).isEmpty = false := isEmpty_false_of_ne hl
    constructor
    · unfold childrenWithTag
      simp only [subsecElem, hce, Bool.false_and, Bool.false_eq_true, if_false, hn,
        List.isEmpty_nil, Bool.not_true, if_false, hlb, Bool.not_false, if_true]
      rw [childrenOf_el]
      by_cases hh : sub.heading.isEmpty = true <;>
        simp only [hh, if_true, Bool.false_eq_true, if_false, List.cons_append,
          List.nil_append, List.filter_cons, List.filter_append, List.filter_nil,
          tagOf_el, e1, e2, hfm, List.nil_append, List.append_nil]
    · simp only [subsecElem, hce, Bool.false_and, Bool.false_eq_true, if_false, hn,
        List.isEmpty_nil, Bool.not_true, if_false, hlb, Bool.not_false, if_true]
      rw [childrenWithTag_el]
      by_cases hh : sub.heading.isEmpty = true <;>
        simp only [hh, if_true, Bool.false_eq_true, if_false, List.cons_append,
          List.nil_append, List.filter_cons, List.filter_append, List.filter_nil,
          tagOf_el, e5, e6, hfm2, List.nil_append, List.append_nil] <;>
        · rw [map_modifyLast_map (letterElem (sid ++ str "__subsec_" ++ sub.number))
            (pushIntoLastChild (sub.content.map pElem))
            (fun le => (childrenWithTag (str "content") le).map pTexts)
            (fun v => v.map (fun w => w ++ sub.content)) (subLettered sub.items)
            (fun li => by
              show (childrenWithTag (str "content")
                  (pushIntoLastChild (sub.content.map pElem)
                    (letterElem (sid ++ str "__subsec_" ++ sub.number) li))).map pTexts =
                ((childrenWithTag (str "content")
                  (letterElem (sid ++ str "__subsec_" ++ sub.number) li)).map pTexts).map
                  (fun w => w ++ sub.content)
              rw [pTexts_pushed_letterElem (sid ++ str "__subsec_" ++ sub.number) li
                sub.content,
                pTexts_letterElem (sid ++ str "__subsec_" ++ sub.number) li]
              rfl)]
          rw [List.map_map]
          have hg : (fun le => (childrenWithTag (str "content") le).map pTexts) ∘
              letterElem (sid ++ str "__subsec_" ++ sub.number) =
              fun li : LetteredItem => [li.content] :=
            funext (fun li => pTexts_letterElem (sid ++ str "__subsec_" ++ sub.number) li)
          rw [hg]

/-- C3 (witness for the amended theorem): a concrete subsection with one
lettered item and one free-form line. -/
theorem c3_amended_witness :
    childrenWithTag (str "content")
      (subsecElem (str "sec_1")
        { number := str "1"
          heading := str "P."
          content := [str "intro line."]
          items := [.lettered { letter := 'a', content := [str "Letter a."] }] }) = [] :=
  ((c3_amended (str "sec_1")
    { number := str "1"
      heading := str "P."
      content := [str "intro line."]
      items := [.lettered { letter := 'a', content := [str "Letter a."] }] }
    (by decide)).2.2 (by decide) (by decide)).1

/-- C1 (counterexample): on the input `"(1) foo\nbar"` the numbered-item
header line is classified while neither a section nor a subsection is open,
and — contrary to the claim — it is not appended to the preamble but
discarded outright: the resulting document has preamble `["bar"]` only. -/
theorem c1_counterexample :
    parseText (str "(1) foo\nbar") = { preamble := [str "bar"], sections := [] } ∧
    numberedMatch (str "(1) foo") = some (str "1", str "foo") := by
  constructor
  · decide
  · decide

/-- C1 (amended): a NumberedItemHeader processed while no section (and hence
no subsection) is open is discarded — the parse state is left completely
unchanged — and this is the only way a line is dropped: every processed line
that is not such an orphan numbered header strictly increases the size of
the accumulated structure. -/
theorem c1_amended :
    (∀ (st : Structure) (l n r : Str), numberedMatch l = some (n, r) →
      st.sections = [] → step st l = st) ∧
    (∀ (st : Structure) (l : Str), (numberedMatch l = none ∨ st.sections ≠ []) →
      stMeasure st < stMeasure (step st l)) :=
  ⟨fun st l n r hm hs => step_numbered_noSection hm st hs,
   fun st l hyp => stMeasure_step_lt st l hyp⟩

/-- C1 (witness for the amended theorem): a concrete orphan numbered header
is dropped, and a concrete plain line grows the structure. -/
theorem c1_amended_witness :
    step { preamble := [], sections := [] } (str "(1) x") =
      { preamble := [], sections := [] } ∧
    stMeasure { preamble := [], sections := [] } <
      stMeasure (step { preamble := [], sections := [] } (str "hello")) :=
  ⟨c1_amended.1 { preamble := [], sections := [] } (str "(1) x") (str "1") (str "x")
      (by decide) rfl,
   c1_amended.2 { preamble := [], sections := [] } (str "hello")
      (Or.inl (by decide))⟩

/-- C2 (counterexample): for the input `"Sec. 1. T.\n§ 1. P.\n(1)"` the
numbered item is created with an **empty** `lines` sequence (the code keeps
`[content_text] if content_text else []`), not with the empty string as its
first line as the claim states. -/
theorem c2_counterexample :
    parseText (str "Sec. 1. T.\n§ 1. P.\n(1)") =
      { preamble := [],
        sections :=
          [{ number := str "1"
             heading := str "T."
             content := []
             subsections :=
               [{ number := str "1"
                  heading := str "P."
                  content := []
                  items := [.numbered { number := str "1", content := [] }] }] }] } := by
  decide

/-- C2 (amended): a NumberedItem is created with `lines` equal to the
singleton of the header's stripped inline remainder when that remainder is
non-empty, and with an **empty** `lines` sequence when the header carries no
inline text (`numberedSeed`); this holds in both creation sites (under an
open subsection, and directly under an open section). -/
theorem c2_amended (st : Structure) (l n r : Str)
    (hm : numberedMatch l = some (n, r)) :
    (curSubsectionExists st = true →
      lastSubItems (step st l) =
        lastSubItems st ++ [.numbered { number := n, content := numberedSeed r }]) ∧
    (curSubsectionExists st = false → curSectionExists st = true →
      lastSecContent (step st l) =
        lastSecContent st ++ [.item { number := n, content := numberedSeed r }]) ∧
    numberedSeed r = (if (strip r).isEmpty then [] else [strip r]) := by
  refine ⟨?_, ?_, rfl⟩
  · intro hcsub
    obtain ⟨sec, hsec, hsubne⟩ := (curSubsectionExists_true_iff st).mp hcsub
    obtain ⟨sub, hsublast⟩ := exists_getLast? hsubne
    rw [step_numbered_sub hm st hcsub,
      lastSubItems_withLastSubsection _ st sec sub hsec hsublast,
      lastSubItems_eq st sec sub hsec hsublast]
  · intro hcsub hcs
    obtain ⟨sec, hsec⟩ := exists_getLast? ((curSectionExists_true_iff st).mp hcs)
    rw [step_numbered_sec hm st hcsub hcs,
      lastSecContent_withLastSection _ st sec hsec]
    unfold lastSecContent
    rw [hsec]

/-- C2 (witness for the amended theorem): creation under an open subsection
with a non-empty remainder seeds the single first line. -/
theorem c2_amended_witness :
    lastSubItems (step (parseText (str "Sec. 1. T.\n§ 1. P.")) (str "(1) x")) =
      lastSubItems (parseText (str "Sec. 1. T.\n§ 1. P.")) ++
        [.numbered { number := str "1", content := numberedSeed (str "x") }] :=
  (c2_amended (parseText (str "Sec. 1. T.\n§ 1. P.")) (str "(1) x") (str "1") (str "x")
    (by decide)).1 (by decide)

/-- C4: the five-line scenario input produces exactly one section; exactly
the two subsection elements `sec_1__subsec_1` and its nested lettered
`sec_1__subsec_1__subsec_a` (the latter holding exactly the two `p` texts
"Clause one." and "continued text." in order, inside its `content` child);
exactly one blockList `sec_1__subsec_1__list_1`; and exactly one item
`sec_1__subsec_1__list_1__item_1` (a child of that blockList). -/
theorem c4_scenario (cfg : Config) (pd title an : Str) :
    countTag (str "section")
      (convertXml cfg pd
        (str "Sec. 1. Title.\n§ 1. Purpose.\n(a) Clause one.\ncontinued text.\n(1) Item one.")
        title an) = 1 ∧
    (elemsWithTag (str "subsection")
      (convertXml cfg pd
        (str "Sec. 1. Title.\n§ 1. Purpose.\n(a) Clause one.\ncontinued text.\n(1) Item one.")
        title an)).map eIdOf =
      [some (str "sec_1__subsec_1"), some (str "sec_1__subsec_1__subsec_a")] ∧
    (elemsWithTag (str "subsection")
      (convertXml cfg pd
        (str "Sec. 1. Title.\n§ 1. Purpose.\n(a) Clause one.\ncontinued text.\n(1) Item one.")
        title an)).filterMap
        (fun e => if eIdOf e = some (str "sec_1__subsec_1__subsec_a")
          then some ((childrenWithTag (str "content") e).map pTexts) else none) =
      [[[str "Clause one.", str "continued text."]]] ∧
    (elemsWithTag (str "blockList")
      (convertXml cfg pd
        (str "Sec. 1. Title.\n§ 1. Purpose.\n(a) Clause one.\ncontinued text.\n(1) Item one.")
        title an)).map eIdOf = [some (str "sec_1__subsec_1__list_1")] ∧
    (elemsWithTag (str "item")
      (convertXml cfg pd
        (str "Sec. 1. Title.\n§ 1. Purpose.\n(a) Clause one.\ncontinued text.\n(1) Item one.")
        title an)).map eIdOf = [some (str "sec_1__subsec_1__list_1__item_1")] ∧
    (elemsWithTag (str "blockList")
      (convertXml cfg pd
        (str "Sec. 1. Title.\n§ 1. Purpose.\n(a) Clause one.\ncontinued text.\n(1) Item one.")
        title an)).map (fun bl => (childrenWithTag (str "item") bl).map eIdOf) =
      [[some (str "sec_1__subsec_1__list_1__item_1")]] := by
  refine ⟨?_, ?_, ?_, ?_, ?_, ?_⟩
  · unfold countTag
    rw [elems_convert_section]
    decide
  · rw [elems_convert_subsection]
    decide
  · rw [elems_convert_subsection]
    decide
  · rw [elems_convert_blockList]
    decide
  · rw [elems_convert_item]
    decide
  · rw [elems_convert_blockList]
    decide

/-- C7: for `"Sec. 1. Definitions.\n(a) First term.\n(b) Second term."` the
output has one section with eId `sec_1`, heading `Definitions.`, whose
content element holds the two demoted lines as `p` paragraphs in order, and
no subsection element at all. -/
theorem c7_demotion (cfg : Config) (pd title an : Str) :
    (elemsWithTag (str "section")
      (convertXml cfg pd (str "Sec. 1. Definitions.\n(a) First term.\n(b) Second term.")
        title an)).map eIdOf = [some (str "sec_1")] ∧
    (elemsWithTag (str "section")
      (convertXml cfg pd (str "Sec. 1. Definitions.\n(a) First term.\n(b) Second term.")
        title an)).map (fun e => (childrenWithTag (str "heading") e).map textOf) =
      [[some (str "Definitions.")]] ∧
    (elemsWithTag (str "section")
      (convertXml cfg pd (str "Sec. 1. Definitions.\n(a) First term.\n(b) Second term.")
        title an)).map (fun e => (childrenWithTag (str "content") e).map pTexts) =
      [[[str "(a) First term.", str "(b) Second term."]]] ∧
    countTag (str "subsection")
      (convertXml cfg pd (str "Sec. 1. Definitions.\n(a) First term.\n(b) Second term.")
        title an) = 0 := by
  refine ⟨?_, ?_, ?_, ?_⟩
  · rw [elems_convert_section]
    decide
  · rw [elems_convert_section]
    decide
  · rw [elems_convert_section]
    decide
  · unfold countTag
    rw [elems_convert_subsection]
    decide

/-- C8: whitespace-only input converts without failure to a document whose
body element has no children at all (in particular no section children) and
which contains no preamble element anywhere. -/
theorem c8_degenerate (cfg : Config) (pd title an t : Str)
    (h : ∀ c ∈ t, pySpace c = true) :
    bodyOf (convertXml cfg pd t title an) = some (el "body" [] none []) ∧
    countTag (str "preamble") (convertXml cfg pd t title an) = 0 := by
  have hp : parseText t = { preamble := [], sections := [] } := parseText_whitespace t h
  constructor
  · show bodyOf (buildXml cfg pd (parseText t) title an) = _
    rw [hp, bodyOf_buildXml]
    rfl
  · show countTag (str "preamble") (buildXml cfg pd (parseText t) title an) = 0
    rw [hp]
    unfold countTag
    rw [elems_preamble_buildXml_degenerate]
    rfl

/-- C8 (witness): the concrete whitespace-only input `"  \n "`. -/
theorem c8_degenerate_witness :
    bodyOf (convertXml cfgSample pdSample (str "  \n ") (str "Statute") (str "X1")) =
      some (el "body" [] none []) ∧
    countTag (str "preamble")
      (convertXml cfgSample pdSample (str "  \n ") (str "Statute") (str "X1")) = 0 :=
  c8_degenerate cfgSample pdSample (str "Statute") (str "X1") (str "  \n ") (by decide)

/-- C9: with `datetime.now()` modelled as the explicit processing date, the
conversion is a pure function, so two calls with the same configuration,
text, title, act number and processing date produce the same `meta` element
and hence byte-identical serializations of it; moreover that `meta` element
is exactly `create_metadata`'s output, which depends only on the
configuration, the processing date and the act number. -/
theorem c9_meta_deterministic (cfg : Config) (pd title an t1 t2 : Str) (h : t1 = t2) :
    metaOf (convertXml cfg pd t1 title an) = metaOf (convertXml cfg pd t2 title an) ∧
    (metaOf (convertXml cfg pd t1 title an)).map xmlString =
      (metaOf (convertXml cfg pd t2 title an)).map xmlString ∧
    metaOf (convertXml cfg pd t1 title an) = some (metaElem cfg pd an) := by
  subst h
  exact ⟨rfl, rfl, metaOf_buildXml cfg pd _ title an⟩

/-- C9 (witness): concrete instance of the determinism theorem. -/
theorem c9_meta_deterministic_witness :
    metaOf (convertXml cfgSample pdSample (str "Sec. 1. T.") (str "Statute") (str "X1")) =
      metaOf (convertXml cfgSample pdSample (str "Sec. 1. T.") (str "Statute") (str "X1")) :=
  (c9_meta_deterministic cfgSample pdSample (str "Statute") (str "X1")
    (str "Sec. 1. T.") (str "Sec. 1. T.") rfl).1

/-- C10 (counterexample): on `"§ 2. Note.\nSec. 1. T."` the preamble
contains the demoted subsection-header line `"§ 2. Note."`, which is not a
PlainText-classified line, so the preamble does **not** consist exactly of
the plain lines occurring before the first SectionHeader. -/
theorem c10_counterexample :
    ¬ ((parseText (str "§ 2. Note.\nSec. 1. T.")).preamble =
      ((cleanLines (str "§ 2. Note.\nSec. 1. T.")).takeWhile
        (fun l => (sectionMatch l).isNone)).filter plainLine) := by
  decide

/-- C10 (amended): once a section exists the preamble never receives another
line; and the preamble consists exactly of the non-blank lines before the
first SectionHeader line that do not match the numbered-item pattern (the
lines handled as plain text there — including demoted subsection and
lettered headers — while numbered-item headers in that region are
discarded). -/
theorem c10_amended :
    (∀ (ls : List Str) (st : Structure), st.sections ≠ [] →
      (runLines ls st).preamble = st.preamble) ∧
    (∀ t : Str, (parseText t).preamble =
      ((cleanLines t).takeWhile (fun l => (sectionMatch l).isNone)).filter
        (fun l => (numberedMatch l).isNone)) := by
  constructor
  · exact fun ls st h => preamble_runLines_of_ne ls st h
  · intro t
    unfold parseText
    rw [preamble_runLines_noSection (cleanLines t) { preamble := [], sections := [] } rfl]
    rfl

/-- C10 (witness for the amended theorem): with a section already open, a
further plain line does not reach the preamble. -/
theorem c10_amended_witness :
    (runLines [str "after"]
      { preamble := [str "before"],
        sections :=
          [{ number := str "1"
             heading := str "T."
             content := []
             subsections := [] }] }).preamble = [str "before"] :=
  c10_amended.1 [str "after"]
    { preamble := [str "before"],
      sections :=
        [{ number := str "1"
           heading := str "T."
           content := []
           subsections := [] }] } (by decide)

/-- C5 (counterexample): the claim as stated fails when the numbered header
occurs while no section is open: for `"(1) foo\nbar"` the output contains no
item element at all, not one item with `p` children `["foo", "bar"]`. -/
theorem c5_counterexample :
    countTag (str "item")
      (convertXml cfgSample pdSample (str "(1) foo\nbar") (str "Statute") (str "X1"))
      = 0 := by
  unfold countTag
  rw [elems_convert_item]
  decide

/-- C5 (amended): provided a subsection (respectively, only a section) is
open when the numbered header is processed, the builder appends exactly one
NumberedItem for it, whose lines are the stripped inline remainder (when
non-empty) followed by every following plain-classified continuation line in
input order; and the serializer renders an item's `p` children as exactly
its lines. -/
theorem c5_amended :
    (∀ (st : Structure) (h : Str) (cs : List Str) (n r : Str),
      numberedMatch h = some (n, r) → curSubsectionExists st = true →
      (∀ c ∈ cs, plainLine c = true) →
      lastSubItems (runLines (h :: cs) st) =
        lastSubItems st ++ [.numbered { number := n, content := numberedSeed r ++ cs }]) ∧
    (∀ (st : Structure) (h : Str) (cs : List Str) (n r : Str),
      numberedMatch h = some (n, r) → curSubsectionExists st = false →
      curSectionExists st = true → (∀ c ∈ cs, plainLine c = true) →
      lastSecContent (runLines (h :: cs) st) =
        lastSecContent st ++ [.item { number := n, content := numberedSeed r ++ cs }]) ∧
    (∀ (lid : Str) (it : NumberedItem), pTexts (itemElem lid it) = it.content) :=
  ⟨fun st h cs n r hm h1 h2 => runLines_numbered_sub st h cs n r hm h1 h2,
   fun st h cs n r hm h1 h2 h3 => runLines_numbered_sec st h cs n r hm h1 h2 h3,
   fun lid it => pTexts_itemElem lid it⟩

/-- C5 (witness for the amended theorem): a concrete numbered header with
one continuation line under an open subsection. -/
theorem c5_amended_witness :
    lastSubItems (runLines [str "(1) one.", str "more."]
        (parseText (str "Sec. 1. T.\n§ 1. P."))) =
      lastSubItems (parseText (str "Sec. 1. T.\n§ 1. P.")) ++
        [.numbered { number := str "1"
                     content := numberedSeed (str "one.") ++ [str "more."] }] :=
  c5_amended.1 (parseText (str "Sec. 1. T.\n§ 1. P.")) (str "(1) one.") [str "more."]
    (str "1") (str "one.") (by decide) (by decide) (by decide)

/-- C6: an input with exactly N section-pattern lines (distinct numbers)
yields exactly N section elements, whose eIds are, in input order,
`sec_<number>` with dots replaced by underscores. -/
theorem c6_section_count (cfg : Config) (pd t title an : Str) (N : Nat)
    (hN : ((cleanLines t).filter (fun l => (sectionMatch l).isSome)).length = N)
    (hdistinct : ((cleanLines t).filterMap
      (fun l => (sectionMatch l).map Prod.fst)).Nodup) :
    countTag (str "section") (convertXml cfg pd t title an) = N ∧
    (elemsWithTag (str "section") (convertXml cfg pd t title an)).map eIdOf =
      ((cleanLines t).filterMap (fun l => (sectionMatch l).map Prod.fst)).map
        (fun n => some (str "sec_" ++ replaceDots n)) := by
  have hnum : (parseText t).sections.map Section.number =
      (cleanLines t).filterMap (fun l => (sectionMatch l).map Prod.fst) := by
    have h := sections_map_number_runLines (cleanLines t)
      { preamble := [], sections := [] }
    simpa [parseText] using h
  constructor
  · unfold countTag
    rw [elems_flat_sections, List.length_map]
    rw [← hN, ← length_filterMap_sectionCaptures, ← hnum, List.length_map]
  · rw [elems_flat_sections, List.map_map]
    have h1 : eIdOf ∘ sectionElem =
        (fun n => some (str "sec_" ++ replaceDots n)) ∘ Section.number :=
      funext (fun sec => eIdOf_sectionElem sec)
    rw [h1, ← List.map_map, hnum]

/-- C6 (witness): a concrete two-section input. -/
theorem c6_section_count_witness :
    countTag (str "section")
      (convertXml cfgSample pdSample (str "Sec. 1. A.\nSec. 2. B.")
        (str "Statute") (str "X1")) = 2 :=
  (c6_section_count cfgSample pdSample (str "Sec. 1. A.\nSec. 2. B.")
    (str "Statute") (str "X1") 2 (by decide) (by decide)).1


end AKN
